import Mathlib

/-!
Verification development for the liberion auth SDK backend.

The development shallowly embeds the components of the SDK that the
checked properties speak about:

* `Aes` — the symmetric session cipher `encryptBuffer` / `decryptBuffer`
  (`src/packages/backend/src/crypto/aes.ts`).  The AES-256 block
  permutation itself is library code (`node:crypto`); it is taken as a
  parameter `E`/`D` subject to the inversion and length laws the library
  provides, while the key derivation, IV handling, CBC chaining and
  PKCS#7 padding — the behaviour of this repository's use of
  `createCipheriv` — are modelled concretely.
* `PQCrypto` — the hybrid post-quantum encryptor envelope construction
  (`src/packages/backend/src/crypto/pq-crypto.ts`), with the KEM, HKDF,
  AEAD and signing primitives as parameters and the byte-exact envelope
  assembly modelled as the source's sequence of offset writes.
* `TG` — the Trust-Gate RPC client's pending-request table
  (`src/packages/backend/src/protocol/trust-gate-client.ts`) as a state
  machine over the events that mutate the table.
* `Engine` — the `LiberionAuth` connection/session state machine
  (`liberion-auth.ts`), with the session table as an insertion-ordered
  association list (JS object semantics) and each protocol handler
  translated statement by statement.
-/

namespace Aes

/-- Byte view of a string, as `Buffer.from(hexDigestString)` sees the
ASCII characters of the hex digest. -/
def strBytes (s : String) : List Nat := s.toList.map Char.toNat

/-- Key derivation of `encryptBuffer`/`decryptBuffer`: hex digest of the
secret (the hash is a parameter), truncated to its first 32 characters,
used as raw key bytes. -/
def deriveKey (hash : String → String) (key : String) : List Nat :=
  strBytes ((hash key).take 32)

/-- PKCS#7 padding to a multiple of 16 bytes, as `cipher.final()`
applies for aes-256-cbc. -/
def pad16 (xs : List Nat) : List Nat :=
  xs ++ List.replicate (16 - xs.length % 16) (16 - xs.length % 16)

/-- PKCS#7 unpadding check performed by `decipher.final()`: the last
byte names the padding length, which must be between 1 and 16 and all
padding bytes must carry that value; otherwise decryption throws. -/
def unpad16 (xs : List Nat) : Option (List Nat) :=
  match xs.getLast? with
  | none => none
  | some n =>
    if 1 ≤ n ∧ n ≤ 16 ∧ n ≤ xs.length ∧ (xs.drop (xs.length - n)).all (fun b => b = n)
    then some (xs.take (xs.length - n))
    else none

/-- Split into 16-byte blocks, fuel-driven so that it reduces. -/
def chunksF : Nat → List Nat → List (List Nat)
  | 0, _ => []
  | _, [] => []
  | fuel + 1, x :: xs => ((x :: xs).take 16) :: chunksF fuel ((x :: xs).drop 16)

/-- Split a byte list into 16-byte blocks. -/
def chunks16 (xs : List Nat) : List (List Nat) := chunksF xs.length xs

/-- Bytewise xor of two blocks. -/
def xorB (a b : List Nat) : List Nat := List.zipWith (fun x y => x ^^^ y) a b

/-- CBC encryption chaining: each plaintext block is xored with the
previous ciphertext block (initially the IV) before the block cipher. -/
def cbcEnc (E : List Nat → List Nat → List Nat) (key : List Nat) :
    List Nat → List (List Nat) → List (List Nat)
  | _, [] => []
  | prev, b :: bs =>
    (E key (xorB prev b)) :: cbcEnc E key (E key (xorB prev b)) bs

/-- CBC decryption chaining. -/
def cbcDec (D : List Nat → List Nat → List Nat) (key : List Nat) :
    List Nat → List (List Nat) → List (List Nat)
  | _, [] => []
  | prev, c :: cs => (xorB prev (D key c)) :: cbcDec D key c cs

/-- `encryptBuffer(buffer, key)` from `aes.ts`: derive the key from the
secret, CBC-encrypt the PKCS#7-padded buffer under the random IV, and
prepend the 16-byte IV to the ciphertext.  The IV is the call's
randomness and is passed explicitly. -/
def encryptBuffer (E : List Nat → List Nat → List Nat) (hash : String → String)
    (buffer : List Nat) (key : String) (iv : List Nat) : List Nat :=
  iv ++ (cbcEnc E (deriveKey hash key) iv (chunks16 (pad16 buffer))).flatten

/-- `decryptBuffer(data, key)` from `aes.ts`: split the 16-byte IV
prefix, CBC-decrypt the remainder and strip the padding.  `none` models
the paths on which node's `crypto` throws: an IV prefix shorter than 16
bytes, an empty or misaligned ciphertext, and a failed padding check. -/
def decryptBuffer (D : List Nat → List Nat → List Nat) (hash : String → String)
    (data : List Nat) (key : String) : Option (List Nat) :=
  if data.length < 16 then none
  else
    let ct := data.drop 16
    if ct.length = 0 ∨ ct.length % 16 ≠ 0 then none
    else unpad16 ((cbcDec D (deriveKey hash key) (data.take 16) (chunks16 ct)).flatten)

theorem chunksF_flatten : ∀ (fuel : Nat) (L : List Nat), L.length ≤ fuel →
    (chunksF fuel L).flatten = L := by
  intro fuel
  induction fuel with
  | zero =>
    intro L hL
    have : L = [] := List.eq_nil_of_length_eq_zero (Nat.le_zero.mp hL)
    simp [this, chunksF]
  | succ f ih =>
    intro L hL
    match L with
    | [] => simp [chunksF]
    | x :: xs =>
      have hdrop : ((x :: xs).drop 16).length ≤ f := by
        rw [List.length_drop]
        omega
      simp only [chunksF, List.flatten_cons, ih _ hdrop, List.take_append_drop]

theorem flatten_chunks16 (L : List Nat) : (chunks16 L).flatten = L :=
  chunksF_flatten L.length L (Nat.le_refl _)

theorem flatten_blocks_length : ∀ (bs : List (List Nat)),
    (∀ b ∈ bs, b.length = 16) → bs.flatten.length = 16 * bs.length := by
  intro bs
  induction bs with
  | nil => intro _; simp
  | cons b rest ih =>
    intro hall
    have hb : b.length = 16 := hall b (by simp)
    have := ih (fun c hc => hall c (by simp [hc]))
    simp only [List.flatten_cons, List.length_append, List.length_cons, this, hb]
    ring

theorem chunksF_of_blocks : ∀ (fuel : Nat) (bs : List (List Nat)),
    bs.length ≤ fuel → (∀ b ∈ bs, b.length = 16) →
    chunksF fuel bs.flatten = bs := by
  intro fuel
  induction fuel with
  | zero =>
    intro bs hlen _
    have : bs = [] := List.eq_nil_of_length_eq_zero (Nat.le_zero.mp hlen)
    simp [this, chunksF]
  | succ f ih =>
    intro bs hlen hall
    match bs with
    | [] => simp [chunksF]
    | b :: rest =>
      have hb : b.length = 16 := hall b (by simp)
      match hbm : b with
      | [] => simp at hb
      | y :: ys =>
        have hb' : (y :: ys).length = 16 := hbm ▸ hb
        have htake : ((y :: ys) ++ rest.flatten).take 16 = y :: ys := by
          rw [← hb', List.take_left]
        have hdrop : ((y :: ys) ++ rest.flatten).drop 16 = rest.flatten := by
          rw [← hb', List.drop_left]
        have hrest : chunksF f rest.flatten = rest := by
          apply ih
          · simpa using Nat.le_of_succ_le_succ hlen
          · intro c hc; exact hall c (by simp [hc])
        show chunksF (f + 1) ((y :: ys) :: rest).flatten = (y :: ys) :: rest
        rw [List.flatten_cons, List.cons_append, chunksF, ← List.cons_append,
          htake, hdrop, hrest]

theorem chunks16_of_blocks (bs : List (List Nat))
    (hall : ∀ b ∈ bs, b.length = 16) : chunks16 bs.flatten = bs := by
  apply chunksF_of_blocks _ _ _ hall
  rw [flatten_blocks_length bs hall]
  omega

theorem xorB_cancel : ∀ (a b : List Nat), a.length = b.length →
    xorB a (xorB a b) = b := by
  intro a
  induction a with
  | nil =>
    intro b hb
    have : b = [] := List.eq_nil_of_length_eq_zero (by simpa using hb.symm)
    simp [this, xorB]
  | cons x xs ih =>
    intro b hb
    match b with
    | [] => simp at hb
    | y :: ys =>
      simp only [xorB, List.zipWith_cons_cons]
      have hx : x ^^^ (x ^^^ y) = y := by
        rw [← Nat.xor_assoc, Nat.xor_self, Nat.zero_xor]
      simp only [List.length_cons, Nat.succ.injEq] at hb
      simpa [hx] using ih ys hb

theorem xorB_length (a b : List Nat) : (xorB a b).length = min a.length b.length := by
  simp [xorB]

theorem cbcDec_cbcEnc (E D : List Nat → List Nat → List Nat) (key : List Nat)
    (HD : ∀ b, b.length = 16 → D key (E key b) = b)
    (HE : ∀ b, b.length = 16 → (E key b).length = 16) :
    ∀ (bs : List (List Nat)) (prev : List Nat), prev.length = 16 →
    (∀ b ∈ bs, b.length = 16) →
    cbcDec D key prev (cbcEnc E key prev bs) = bs := by
  intro bs
  induction bs with
  | nil => intro prev _ _; simp [cbcEnc, cbcDec]
  | cons b rest ih =>
    intro prev hprev hall
    have hb : b.length = 16 := hall b (by simp)
    have hxlen : (xorB prev b).length = 16 := by
      rw [xorB_length, hprev, hb]; simp
    have hc : (E key (xorB prev b)).length = 16 := HE _ hxlen
    simp only [cbcEnc, cbcDec, List.cons.injEq]
    constructor
    · rw [HD _ hxlen]
      exact xorB_cancel prev b (by rw [hprev, hb])
    · exact ih _ hc (fun c hcm => hall c (by simp [hcm]))

theorem cbcEnc_blocks (E : List Nat → List Nat → List Nat) (key : List Nat)
    (HE : ∀ b, b.length = 16 → (E key b).length = 16) :
    ∀ (bs : List (List Nat)) (prev : List Nat), prev.length = 16 →
    (∀ b ∈ bs, b.length = 16) →
    ∀ c ∈ cbcEnc E key prev bs, c.length = 16 := by
  intro bs
  induction bs with
  | nil => intro prev _ _ c hc; simp [cbcEnc] at hc
  | cons b rest ih =>
    intro prev hprev hall c hc
    have hb : b.length = 16 := hall b (by simp)
    have hxlen : (xorB prev b).length = 16 := by rw [xorB_length, hprev, hb]; simp
    have hclen : (E key (xorB prev b)).length = 16 := HE _ hxlen
    simp only [cbcEnc, List.mem_cons] at hc
    cases hc with
    | inl h => rw [h]; exact hclen
    | inr h => exact ih _ hclen (fun d hd => hall d (by simp [hd])) c h

theorem cbcEnc_length (E : List Nat → List Nat → List Nat) (key : List Nat) :
    ∀ (bs : List (List Nat)) (prev : List Nat),
    (cbcEnc E key prev bs).length = bs.length := by
  intro bs
  induction bs with
  | nil => intro prev; simp [cbcEnc]
  | cons b rest ih => intro prev; simp [cbcEnc, ih]

theorem pad16_length (xs : List Nat) :
    (pad16 xs).length = xs.length + (16 - xs.length % 16) := by
  simp [pad16]

theorem pad16_pos (xs : List Nat) : 0 < (pad16 xs).length := by
  rw [pad16_length]
  have := Nat.mod_lt xs.length (y := 16) (by omega)
  omega

theorem pad16_mod (xs : List Nat) : (pad16 xs).length % 16 = 0 := by
  rw [pad16_length]
  have := Nat.mod_lt xs.length (y := 16) (by omega)
  omega

theorem chunks16_cons (y : Nat) (ys : List Nat) :
    chunks16 (y :: ys) = ((y :: ys).take 16) :: chunksF ys.length ((y :: ys).drop 16) :=
  rfl

theorem pad16_blocks (xs : List Nat) :
    ∀ b ∈ chunks16 (pad16 xs), b.length = 16 := by
  have haux : ∀ (fuel : Nat) (L : List Nat), L.length % 16 = 0 →
      ∀ b ∈ chunksF fuel L, b.length = 16 := by
    intro fuel
    induction fuel with
    | zero => intro L _ b hb; simp [chunksF] at hb
    | succ f ih =>
      intro L hL b hb
      match L with
      | [] => simp [chunksF] at hb
      | x :: xs' =>
        have hge : 16 ≤ (x :: xs').length := by
          by_contra hlt
          push_neg at hlt
          have h1 : 0 < (x :: xs').length := by simp
          have := Nat.mod_eq_of_lt hlt
          omega
        simp only [chunksF, List.mem_cons] at hb
        cases hb with
        | inl h => rw [h, List.length_take]; omega
        | inr h =>
          apply ih ((x :: xs').drop 16) _ b h
          rw [List.length_drop]
          omega
  exact haux _ _ (pad16_mod xs)

theorem getLast?_replicate_succ (m a : Nat) :
    (List.replicate (m + 1) a).getLast? = some a := by
  rw [List.replicate_succ', List.getLast?_append_of_ne_nil _ (by simp)]
  rfl

theorem unpad16_pad16 (xs : List Nat) : unpad16 (pad16 xs) = some xs := by
  set n := 16 - xs.length % 16 with hn
  have hn1 : 1 ≤ n := by
    have := Nat.mod_lt xs.length (y := 16) (by omega)
    omega
  have hn16 : n ≤ 16 := by omega
  have hrep : (List.replicate n n).getLast? = some n := by
    have : n = (n - 1) + 1 := by omega
    rw [this]
    exact getLast?_replicate_succ (n - 1) ((n - 1) + 1)
  have hlast : (pad16 xs).getLast? = some n := by
    rw [pad16, ← hn]
    rw [List.getLast?_append_of_ne_nil _ (by simp; omega)]
    exact hrep
  have hlen : (pad16 xs).length = xs.length + n := by rw [pad16_length, ← hn]
  rw [unpad16, hlast]
  have hdrop : (pad16 xs).drop ((pad16 xs).length - n) = List.replicate n n := by
    rw [hlen, Nat.add_sub_cancel, pad16, ← hn]
    have : xs.length = (xs).length := rfl
    rw [List.drop_left]
  have htake : (pad16 xs).take ((pad16 xs).length - n) = xs := by
    rw [hlen, Nat.add_sub_cancel, pad16, ← hn]
    rw [List.take_left]
  simp only [hdrop, htake]
  rw [if_pos]
  refine ⟨hn1, hn16, by omega, ?_⟩
  rw [List.all_eq_true]
  intro b hb
  simp only [List.mem_replicate] at hb
  simp [hb.2]

/-- Core round-trip fact shared by the C4 theorem and its witness:
with a block cipher pair satisfying the library laws, CBC decryption of
a CBC encryption recovers the original plaintext. -/
theorem decryptBuffer_encryptBuffer
    (E D : List Nat → List Nat → List Nat) (hash : String → String)
    (x : List Nat) (k : String) (iv : List Nat)
    (HD : ∀ key b, b.length = 16 → D key (E key b) = b)
    (HE : ∀ key b, b.length = 16 → (E key b).length = 16)
    (hiv : iv.length = 16) :
    decryptBuffer D hash (encryptBuffer E hash x k iv) k = some x := by
  set key := deriveKey hash k with hkey
  set cts := cbcEnc E key iv (chunks16 (pad16 x)) with hcts
  have hblocks : ∀ b ∈ chunks16 (pad16 x), b.length = 16 := pad16_blocks x
  have hctblocks : ∀ c ∈ cts, c.length = 16 :=
    cbcEnc_blocks E key (fun b => HE key b) _ iv hiv hblocks
  have hctlen : cts.flatten.length = 16 * cts.length :=
    flatten_blocks_length cts hctblocks
  have hctsne : cts.length ≠ 0 := by
    rw [hcts, cbcEnc_length]
    obtain ⟨y, ys, hp⟩ := List.exists_cons_of_ne_nil
      (List.ne_nil_of_length_pos (pad16_pos x))
    rw [hp, chunks16_cons]
    simp
  have henclen : (encryptBuffer E hash x k iv).length =
      16 + cts.flatten.length := by
    rw [encryptBuffer, ← hkey, ← hcts, List.length_append, hiv]
  rw [decryptBuffer]
  rw [if_neg (by omega)]
  have hdrop : (encryptBuffer E hash x k iv).drop 16 = cts.flatten := by
    rw [encryptBuffer, ← hkey, ← hcts, ← hiv, List.drop_left]
  have htake : (encryptBuffer E hash x k iv).take 16 = iv := by
    rw [encryptBuffer, ← hkey, ← hcts, ← hiv, List.take_left]
  simp only [hdrop, htake]
  rw [if_neg]
  · rw [← hkey, chunks16_of_blocks cts hctblocks]
    rw [cbcDec_cbcEnc E D key (fun b => HD key b) (fun b => HE key b) _ iv hiv hblocks]
    rw [flatten_chunks16]
    exact unpad16_pad16 x
  · push_neg
    constructor
    · rw [hctlen]; omega
    · rw [hctlen]; omega

/-- C4: `decryptBuffer(encryptBuffer(x, k), k) = x` for every byte
sequence `x` (including the empty one) and every key string `k`, for
any block cipher pair satisfying the library's inversion and length
laws; and two encryptions of the same input under distinct random IVs
produce distinct outputs. -/
theorem aes_roundtrip_and_fresh_iv
    (E D : List Nat → List Nat → List Nat) (hash : String → String)
    (x : List Nat) (k : String) (iv₁ iv₂ : List Nat)
    (HD : ∀ key b, b.length = 16 → D key (E key b) = b)
    (HE : ∀ key b, b.length = 16 → (E key b).length = 16)
    (h₁ : iv₁.length = 16) (h₂ : iv₂.length = 16) (hne : iv₁ ≠ iv₂) :
    decryptBuffer D hash (encryptBuffer E hash x k iv₁) k = some x ∧
    encryptBuffer E hash x k iv₁ ≠ encryptBuffer E hash x k iv₂ := by
  constructor
  · exact decryptBuffer_encryptBuffer E D hash x k iv₁ HD HE h₁
  · intro heq
    apply hne
    have h1 : (encryptBuffer E hash x k iv₁).take 16 = iv₁ := by
      rw [encryptBuffer, ← h₁, List.take_left]
    have h2 : (encryptBuffer E hash x k iv₂).take 16 = iv₂ := by
      rw [encryptBuffer, ← h₂, List.take_left]
    rw [← h1, ← h2, heq]

/-- C4 witness: the identity block permutation satisfies the library
laws; round trip and IV-freshness evaluated at concrete inputs. -/
theorem aes_roundtrip_witness :
    decryptBuffer (fun _ b => b) (fun _ => "h")
      (encryptBuffer (fun _ b => b) (fun _ => "h") [1, 2, 3] "k" (List.replicate 16 0)) "k"
      = some [1, 2, 3] ∧
    encryptBuffer (fun _ b => b) (fun _ => "h") [1, 2, 3] "k" (List.replicate 16 0) ≠
    encryptBuffer (fun _ b => b) (fun _ => "h") [1, 2, 3] "k" (5 :: List.replicate 15 0) :=
  aes_roundtrip_and_fresh_iv (fun _ b => b) (fun _ b => b) (fun _ => "h")
    [1, 2, 3] "k" (List.replicate 16 0) (5 :: List.replicate 15 0)
    (fun _ _ _ => rfl) (fun _ _ h => h) (by decide) (by decide) (by decide)

/-- C5 counterexample: a single corrupted ciphertext byte that leaves
the final padding byte intact makes `decryptBuffer` return a wrong
plaintext instead of raising an error — CBC with PKCS#7 only detects
corruption through the padding check. -/
theorem aes_corruption_not_detected :
    (((encryptBuffer (fun _ b => b) (fun _ => "h") (List.replicate 15 0) "k"
        (List.replicate 16 0)).set 16 7).length =
      (encryptBuffer (fun _ b => b) (fun _ => "h") (List.replicate 15 0) "k"
        (List.replicate 16 0)).length) ∧
    ((encryptBuffer (fun _ b => b) (fun _ => "h") (List.replicate 15 0) "k"
        (List.replicate 16 0)).set 16 7 ≠
      encryptBuffer (fun _ b => b) (fun _ => "h") (List.replicate 15 0) "k"
        (List.replicate 16 0)) ∧
    decryptBuffer (fun _ b => b) (fun _ => "h")
      ((encryptBuffer (fun _ b => b) (fun _ => "h") (List.replicate 15 0) "k"
        (List.replicate 16 0)).set 16 7) "k" = some (7 :: List.replicate 14 0) ∧
    (7 :: List.replicate 14 0) ≠ List.replicate 15 0 := by
  decide

/-- C5 amended: decryption does reliably fail on truncation that breaks
the block structure — an input shorter than IV plus one block, or off
the 16-byte grid, always raises. -/
theorem decryptBuffer_truncated_fails
    (D : List Nat → List Nat → List Nat) (hash : String → String)
    (data : List Nat) (k : String)
    (h : data.length < 32 ∨ data.length % 16 ≠ 0) :
    decryptBuffer D hash data k = none := by
  rw [decryptBuffer]
  by_cases h16 : data.length < 16
  · rw [if_pos h16]
  · rw [if_neg h16]
    have hct : (data.drop 16).length = data.length - 16 := by
      rw [List.length_drop]
    simp only
    rw [if_pos]
    rw [hct]
    omega

/-- Witness for the amended C5 theorem at a concrete truncated input. -/
theorem decryptBuffer_truncated_witness :
    decryptBuffer (fun _ b => b) (fun _ => "h") (List.replicate 20 3) "k" = none :=
  decryptBuffer_truncated_fails (fun _ b => b) (fun _ => "h")
    (List.replicate 20 3) "k" (by decide)

end Aes

namespace PQCrypto

/-- 4-byte big-endian encoding, as `DataView.setUint32(0, n, false)`
writes it (the value is taken modulo 2^32 bytewise). -/
def be32 (n : Nat) : List Nat :=
  [n / 2 ^ 24 % 256, n / 2 ^ 16 % 256, n / 2 ^ 8 % 256, n % 256]

/-- The protocol-version constant of `pq-crypto.ts`:
the UTF-8 bytes of the string used as salt, info and AAD prefix. -/
def PROTOCOL_AAD : List Nat := [80, 81, 118, 49]

/-- One `result.set(src, offset)` write into a destination buffer. -/
def setAt (dest : List Nat) (off : Nat) (src : List Nat) : List Nat :=
  dest.take off ++ src ++ dest.drop (off + src.length)

/-- The source's write loop: successive `result.set` calls at a running
offset. -/
def writeAll : List Nat → Nat → List (List Nat) → List Nat
  | dest, _, [] => dest
  | dest, off, s :: ss => writeAll (setAt dest off s) (off + s.length) ss

/-- `PQCrypto.encrypt(message)` from `pq-crypto.ts`.  The KEM
encapsulation output (`C`, shared secret `S`) and the random nonce are
the call's nondeterminism and are passed explicitly; HKDF, the AEAD
encryption (argument order: message, additional data, nonce, key) and
the ML-DSA signing primitive are library code passed as parameters.
The envelope is assembled exactly as in the source: a buffer of size
1 + 4 + 4 + sigLen + kemLen + nonceLen + ctLen, filled by consecutive
`set` writes of version, header, signature length, signature, KEM
ciphertext, nonce and authenticated ciphertext. -/
def encrypt (hkdf : List Nat → List Nat)
    (aead : List Nat → List Nat → List Nat → List Nat → List Nat)
    (sign : List Nat → List Nat)
    (C S nonce message : List Nat) : List Nat :=
  let key := hkdf S
  let versionBuf : List Nat := [1]
  let header := be32 C.length
  let aad := PROTOCOL_AAD ++ versionBuf ++ header
  let ct := aead message aad nonce key
  let signature := sign C
  let sigLenBuf := be32 signature.length
  let total := 1 + 4 + 4 + signature.length + C.length + nonce.length + ct.length
  writeAll (List.replicate total 0) 0
    [versionBuf, header, sigLenBuf, signature, C, nonce, ct]

theorem be32_length (n : Nat) : (be32 n).length = 4 := rfl

theorem setAt_at_prefix (pre src rest : List Nat) :
    setAt (pre ++ rest) pre.length src = pre ++ src ++ rest.drop src.length := by
  have hd : (pre ++ rest).drop (pre.length + src.length) = rest.drop src.length := by
    rw [← List.drop_drop, List.drop_left]
  rw [setAt, List.take_left, hd]

theorem writeAll_fill : ∀ (ss : List (List Nat)) (pre : List Nat) (m : Nat),
    (ss.map List.length).sum = m →
    writeAll (pre ++ List.replicate m 0) pre.length ss = pre ++ ss.flatten := by
  intro ss
  induction ss with
  | nil =>
    intro pre m hm
    have : m = 0 := by simpa using hm.symm
    simp [writeAll, this]
  | cons s rest ih =>
    intro pre m hm
    have hle : s.length ≤ m := by
      simp only [List.map_cons, List.sum_cons] at hm
      omega
    rw [writeAll, setAt_at_prefix, List.drop_replicate]
    have hlen : pre.length + s.length = (pre ++ s).length := by
      rw [List.length_append]
    rw [List.append_assoc pre s, ← List.append_assoc pre s, hlen]
    rw [ih (pre ++ s) (m - s.length) (by
      simp only [List.map_cons, List.sum_cons] at hm
      omega)]
    simp

/-- C8: the hybrid encryptor's output is byte-exactly
version ++ 4-byte big-endian length of the KEM ciphertext ++
4-byte big-endian signature length ++ signature ++ KEM ciphertext ++
nonce ++ authenticated ciphertext, where the signature is computed over
the KEM ciphertext `C` alone and the AEAD additional authenticated data
is the protocol-version constant ++ the one-byte format version ++ the
4-byte big-endian length of `C`. -/
theorem pq_encrypt_layout (hkdf : List Nat → List Nat)
    (aead : List Nat → List Nat → List Nat → List Nat → List Nat)
    (sign : List Nat → List Nat) (C S nonce message : List Nat) :
    encrypt hkdf aead sign C S nonce message =
      [1] ++ be32 C.length ++ be32 (sign C).length ++ sign C ++ C ++ nonce ++
        aead message (PROTOCOL_AAD ++ [1] ++ be32 C.length) nonce (hkdf S) := by
  have h := writeAll_fill
    [[1], be32 C.length, be32 (sign C).length, sign C, C, nonce,
      aead message (PROTOCOL_AAD ++ [1] ++ be32 C.length) nonce (hkdf S)]
    []
    (1 + 4 + 4 + (sign C).length + C.length + nonce.length +
      (aead message (PROTOCOL_AAD ++ [1] ++ be32 C.length) nonce (hkdf S)).length)
    (by simp [be32_length]; omega)
  simp only [List.nil_append, List.length_nil] at h
  simp only [encrypt]
  rw [h]
  simp [List.append_assoc]

end PQCrypto

namespace TG

/-- Pending-request bookkeeping of `TrustGateClient`.  `pending` is the
key set of `pendingRequests`; `timers` the per-request timeouts that
have been scheduled by `send` and not cleared by `handleMessage`;
`nextId` the `requestId` counter; `calls` the raw settlement callback
invocations `(requestId, outcome)` in order; `settled` the promise
settlements under JS promise semantics (only the first settlement of a
promise sticks). -/
structure TGState where
  pending : List Nat
  timers : List Nat
  nextId : Nat
  wsOpen : Bool
  settled : List (Nat × String)
  calls : List (Nat × String)
deriving Repr, DecidableEq

def init : TGState :=
  { pending := [], timers := [], nextId := 0, wsOpen := true,
    settled := [], calls := [] }

/-- A settlement callback invocation on a request's promise: the raw
call is always recorded, while the promise itself keeps only the first
settlement. -/
def settle (st : TGState) (id : Nat) (tag : String) : TGState :=
  { st with
    calls := st.calls ++ [(id, tag)],
    settled :=
      if st.settled.any (fun p => p.1 = id) then st.settled
      else st.settled ++ [(id, tag)] }

def settleAll (st : TGState) (ids : List Nat) (tag : String) : TGState :=
  ids.foldl (fun s i => settle s i tag) st

/-- The events that mutate the pending-request table: a `send` call, a
per-request timeout firing, an inbound message with its correlation id
and error flag (`trust-gate-client.ts` treats a missing or zero
`_requestId` as absent), and the socket close event. -/
inductive TGEvent where
  | send
  | timerFire (id : Nat)
  | msgRecv (rid : Option Nat) (isError : Bool)
  | closeEvt

/-- One step of the client's pending-request machinery, translated from
`send`, the `setTimeout` callback, `handleMessage` and the close
handler.  The timeout callback deletes the entry and rejects; a reply
clears the timeout, deletes the entry, and rejects on an error payload
or resolves otherwise; close rejects every pending request with a
connection-closed error (without clearing their timers). -/
def step (st : TGState) (e : TGEvent) : TGState :=
  match e with
  | .send =>
    if st.wsOpen then
      { st with nextId := st.nextId + 1,
                pending := st.pending ++ [st.nextId + 1],
                timers := st.timers ++ [st.nextId + 1] }
    else st
  | .timerFire id =>
    if id ∈ st.timers then
      settle { st with timers := st.timers.erase id,
                       pending := st.pending.erase id } id "reject_timeout"
    else st
  | .msgRecv rid isError =>
    match rid with
    | none => st
    | some id =>
      if id = 0 then st
      else if id ∈ st.pending then
        settle { st with timers := st.timers.erase id,
                         pending := st.pending.erase id } id
          (if isError then "reject_error" else "resolve")
      else st
  | .closeEvt =>
    settleAll { st with pending := [], wsOpen := false } st.pending "reject_closed"

def run (st : TGState) (events : List TGEvent) : TGState :=
  events.foldl step st

theorem settle_pending (st : TGState) (id : Nat) (tag : String) :
    (settle st id tag).pending = st.pending := rfl

theorem settle_timers (st : TGState) (id : Nat) (tag : String) :
    (settle st id tag).timers = st.timers := rfl

theorem settle_nextId (st : TGState) (id : Nat) (tag : String) :
    (settle st id tag).nextId = st.nextId := rfl

theorem settle_calls (st : TGState) (id : Nat) (tag : String) :
    (settle st id tag).calls = st.calls ++ [(id, tag)] := rfl

theorem settle_mem_keys (st : TGState) (id : Nat) (tag : String) (a : Nat) :
    a ∈ ((settle st id tag).settled.map Prod.fst) ↔
      a ∈ (st.settled.map Prod.fst) ∨ a = id := by
  rw [settle]
  by_cases h : (st.settled.any fun p => p.1 = id) = true
  · simp only [h, if_true]
    have hid : id ∈ st.settled.map Prod.fst := by
      rw [List.any_eq_true] at h
      obtain ⟨p, hp, he⟩ := h
      simp only [decide_eq_true_eq] at he
      exact List.mem_map.mpr ⟨p, hp, he⟩
    constructor
    · exact Or.inl
    · rintro (h' | rfl)
      · exact h'
      · exact hid
  · rw [if_neg h]
    rw [List.map_append, List.mem_append]
    simp

theorem settle_keys_nodup (st : TGState) (id : Nat) (tag : String)
    (h : (st.settled.map Prod.fst).Nodup) :
    ((settle st id tag).settled.map Prod.fst).Nodup := by
  rw [settle]
  by_cases hc : (st.settled.any fun p => p.1 = id) = true
  · simpa only [hc, if_true] using h
  · have hid : id ∉ st.settled.map Prod.fst := by
      intro hmem
      apply hc
      rw [List.any_eq_true]
      obtain ⟨p, hp, he⟩ := List.mem_map.mp hmem
      exact ⟨p, hp, by simp [he]⟩
    rw [if_neg hc]
    rw [List.map_append]
    refine List.Nodup.append h (by simp) ?_
    intro a ha hb
    simp only [List.map_cons, List.map_nil, List.mem_singleton] at hb
    subst hb
    exact hid ha

theorem settleAll_pending : ∀ (ids : List Nat) (st : TGState) (tag : String),
    (settleAll st ids tag).pending = st.pending := by
  intro ids
  induction ids with
  | nil => intro st tag; rfl
  | cons i ids ih =>
    intro st tag
    show (settleAll (settle st i tag) ids tag).pending = st.pending
    rw [ih, settle_pending]

theorem settleAll_timers : ∀ (ids : List Nat) (st : TGState) (tag : String),
    (settleAll st ids tag).timers = st.timers := by
  intro ids
  induction ids with
  | nil => intro st tag; rfl
  | cons i ids ih =>
    intro st tag
    show (settleAll (settle st i tag) ids tag).timers = st.timers
    rw [ih, settle_timers]

theorem settleAll_nextId : ∀ (ids : List Nat) (st : TGState) (tag : String),
    (settleAll st ids tag).nextId = st.nextId := by
  intro ids
  induction ids with
  | nil => intro st tag; rfl
  | cons i ids ih =>
    intro st tag
    show (settleAll (settle st i tag) ids tag).nextId = st.nextId
    rw [ih, settle_nextId]

theorem settleAll_calls : ∀ (ids : List Nat) (st : TGState) (tag : String),
    (settleAll st ids tag).calls = st.calls ++ ids.map (fun i => (i, tag)) := by
  intro ids
  induction ids with
  | nil => intro st tag; simp [settleAll]
  | cons i ids ih =>
    intro st tag
    show (settleAll (settle st i tag) ids tag).calls = _
    rw [ih, settle_calls, List.append_assoc]
    simp

theorem settleAll_mem_keys : ∀ (ids : List Nat) (st : TGState) (tag : String) (a : Nat),
    a ∈ ((settleAll st ids tag).settled.map Prod.fst) ↔
      a ∈ (st.settled.map Prod.fst) ∨ a ∈ ids := by
  intro ids
  induction ids with
  | nil => intro st tag a; simp [settleAll]
  | cons i ids ih =>
    intro st tag a
    show a ∈ ((settleAll (settle st i tag) ids tag).settled.map Prod.fst) ↔ _
    rw [ih, settle_mem_keys]
    simp only [List.mem_cons]
    tauto

theorem settleAll_keys_nodup : ∀ (ids : List Nat) (st : TGState) (tag : String),
    (st.settled.map Prod.fst).Nodup →
    ((settleAll st ids tag).settled.map Prod.fst).Nodup := by
  intro ids
  induction ids with
  | nil => intro st tag h; exact h
  | cons i ids ih =>
    intro st tag h
    exact ih (settle st i tag) tag (settle_keys_nodup st i tag h)

/-- The reachable-state invariant of the pending-request table. -/
structure InvP (st : TGState) : Prop where
  pend_bound : ∀ id ∈ st.pending, 0 < id ∧ id ≤ st.nextId
  timer_bound : ∀ id ∈ st.timers, 0 < id ∧ id ≤ st.nextId
  calls_bound : ∀ p ∈ st.calls, p.1 ≤ st.nextId
  pend_nodup : st.pending.Nodup
  timer_nodup : st.timers.Nodup
  timeout_done : ∀ id, (id, "reject_timeout") ∈ st.calls →
    id ∉ st.timers ∧ id ∉ st.pending
  reply_done : ∀ id t, (id, t) ∈ st.calls → t = "resolve" ∨ t = "reject_error" →
    id ∉ st.timers ∧ id ∉ st.pending
  excl : ∀ id, ¬((id, "reject_timeout") ∈ st.calls ∧ (id, "resolve") ∈ st.calls)
  keys_nodup : (st.settled.map Prod.fst).Nodup
  coverage : ∀ id, 0 < id → id ≤ st.nextId →
    id ∈ st.pending ∨ id ∈ st.settled.map Prod.fst
  pend_timer : ∀ id ∈ st.pending, id ∈ st.timers

theorem InvP_init : InvP init := by
  refine ⟨?_, ?_, ?_, ?_, ?_, ?_, ?_, ?_, ?_, ?_, ?_⟩
  · simp [init]
  · simp [init]
  · simp [init]
  · simp [init]
  · simp [init]
  · simp [init]
  · simp [init]
  · simp [init]
  · simp [init]
  · intro id hpos hle
    simp only [init] at hle
    omega
  · simp [init]

theorem InvP_step (st : TGState) (e : TGEvent) (h : InvP st) : InvP (step st e) := by
  cases e with
  | send =>
    rw [step]
    by_cases ho : st.wsOpen = true
    · rw [if_pos ho]
      refine ⟨?_, ?_, ?_, ?_, ?_, ?_, ?_, ?_, ?_, ?_, ?_⟩ <;> dsimp only
      · intro id hid
        rw [List.mem_append] at hid
        cases hid with
        | inl hl => have := h.pend_bound id hl; omega
        | inr hr => simp at hr; omega
      · intro id hid
        rw [List.mem_append] at hid
        cases hid with
        | inl hl => have := h.timer_bound id hl; omega
        | inr hr => simp at hr; omega
      · intro p hp
        have := h.calls_bound p hp; omega
      · refine List.Nodup.append h.pend_nodup (by simp) ?_
        intro a ha hb
        simp only [List.mem_singleton] at hb
        subst hb
        have := h.pend_bound _ ha; omega
      · refine List.Nodup.append h.timer_nodup (by simp) ?_
        intro a ha hb
        simp only [List.mem_singleton] at hb
        subst hb
        have := h.timer_bound _ ha; omega
      · intro id hid
        have hle := h.calls_bound _ hid
        have := h.timeout_done id hid
        simp only [List.mem_append, List.mem_singleton]
        constructor
        · rintro (hl | he)
          · exact this.1 hl
          · simp at hle; omega
        · rintro (hl | he)
          · exact this.2 hl
          · simp at hle; omega
      · intro id t hid ht
        have hle := h.calls_bound _ hid
        have := h.reply_done id t hid ht
        simp only [List.mem_append, List.mem_singleton]
        constructor
        · rintro (hl | he)
          · exact this.1 hl
          · simp at hle; omega
        · rintro (hl | he)
          · exact this.2 hl
          · simp at hle; omega
      · exact h.excl
      · exact h.keys_nodup
      · intro id hpos hle
        simp only [List.mem_append, List.mem_singleton]
        by_cases hi : id ≤ st.nextId
        · cases h.coverage id hpos hi with
          | inl hp => exact Or.inl (Or.inl hp)
          | inr hs => exact Or.inr hs
        · left; right; omega
      · intro id hid
        rw [List.mem_append] at hid ⊢
        cases hid with
        | inl hl => exact Or.inl (h.pend_timer id hl)
        | inr hr => exact Or.inr hr
    · rw [if_neg ho]; exact h
  | timerFire tid =>
    rw [step]
    by_cases hm : tid ∈ st.timers
    · rw [if_pos hm]
      have htb := h.timer_bound tid hm
      constructor
      · intro id hid
        rw [settle_pending] at hid
        exact h.pend_bound id (List.mem_of_mem_erase hid)
      · intro id hid
        rw [settle_timers] at hid
        exact h.timer_bound id (List.mem_of_mem_erase hid)
      · intro p hp
        rw [settle_calls, List.mem_append] at hp
        rw [settle_nextId]
        cases hp with
        | inl hl => exact h.calls_bound p hl
        | inr hr =>
          simp only [List.mem_singleton] at hr
          rw [hr]
          show tid ≤ st.nextId
          omega
      · rw [settle_pending]; exact h.pend_nodup.erase tid
      · rw [settle_timers]; exact h.timer_nodup.erase tid
      · intro id hid
        rw [settle_calls, List.mem_append] at hid
        rw [settle_pending, settle_timers]
        cases hid with
        | inl hl =>
          have := h.timeout_done id hl
          exact ⟨fun hc => this.1 (List.mem_of_mem_erase hc),
                 fun hc => this.2 (List.mem_of_mem_erase hc)⟩
        | inr hr =>
          simp only [List.mem_singleton, Prod.mk.injEq] at hr
          rw [hr.1]
          constructor
          · rw [h.timer_nodup.mem_erase_iff]; simp
          · rw [h.pend_nodup.mem_erase_iff]; simp
      · intro id t hid ht
        rw [settle_calls, List.mem_append] at hid
        rw [settle_pending, settle_timers]
        cases hid with
        | inl hl =>
          have := h.reply_done id t hl ht
          exact ⟨fun hc => this.1 (List.mem_of_mem_erase hc),
                 fun hc => this.2 (List.mem_of_mem_erase hc)⟩
        | inr hr =>
          simp only [List.mem_singleton, Prod.mk.injEq] at hr
          rcases ht with rfl | rfl
          · exact absurd hr.2 (by decide)
          · exact absurd hr.2 (by decide)
      · intro id hc
        rw [settle_calls] at hc
        obtain ⟨h1, h2⟩ := hc
        rw [List.mem_append] at h1 h2
        cases h2 with
        | inr hr =>
          simp only [List.mem_singleton, Prod.mk.injEq] at hr
          exact absurd hr.2 (by decide)
        | inl h2l =>
          cases h1 with
          | inl h1l => exact h.excl id ⟨h1l, h2l⟩
          | inr h1r =>
            simp only [List.mem_singleton, Prod.mk.injEq] at h1r
            have hnt := (h.reply_done id "resolve" h2l (Or.inl rfl)).1
            rw [← h1r.1] at hm
            exact hnt hm
      · exact settle_keys_nodup _ tid _ h.keys_nodup
      · intro id hpos hle
        rw [settle_pending, settle_mem_keys]
        rw [settle_nextId] at hle
        cases h.coverage id hpos hle with
        | inr hs => exact Or.inr (Or.inl hs)
        | inl hp =>
          by_cases hidt : id = tid
          · exact Or.inr (Or.inr hidt)
          · left
            rw [h.pend_nodup.mem_erase_iff]
            exact ⟨hidt, hp⟩
      · intro id hid
        rw [settle_pending] at hid
        rw [settle_timers]
        rw [h.pend_nodup.mem_erase_iff] at hid
        rw [h.timer_nodup.mem_erase_iff]
        exact ⟨hid.1, h.pend_timer id hid.2⟩
    · rw [if_neg hm]; exact h
  | msgRecv rid isError =>
    match rid with
    | none => exact h
    | some mid =>
      rw [step]
      by_cases hz : mid = 0
      · rw [if_pos hz]; exact h
      · rw [if_neg hz]
        by_cases hm : mid ∈ st.pending
        · rw [if_pos hm]
          set tg := (if isError then "reject_error" else "resolve") with htg
          have htg2 : tg = "resolve" ∨ tg = "reject_error" := by
            rw [htg]
            by_cases hE : isError = true
            · simp [hE]
            · simp [hE]
          have hmb := h.pend_bound mid hm
          constructor
          · intro id hid
            rw [settle_pending] at hid
            exact h.pend_bound id (List.mem_of_mem_erase hid)
          · intro id hid
            rw [settle_timers] at hid
            exact h.timer_bound id (List.mem_of_mem_erase hid)
          · intro p hp
            rw [settle_calls, List.mem_append] at hp
            rw [settle_nextId]
            cases hp with
            | inl hl => exact h.calls_bound p hl
            | inr hr =>
              simp only [List.mem_singleton] at hr
              rw [hr]
              show mid ≤ st.nextId
              omega
          · rw [settle_pending]; exact h.pend_nodup.erase mid
          · rw [settle_timers]; exact h.timer_nodup.erase mid
          · intro id hid
            rw [settle_calls, List.mem_append] at hid
            rw [settle_pending, settle_timers]
            cases hid with
            | inl hl =>
              have := h.timeout_done id hl
              exact ⟨fun hc => this.1 (List.mem_of_mem_erase hc),
                     fun hc => this.2 (List.mem_of_mem_erase hc)⟩
            | inr hr =>
              simp only [List.mem_singleton, Prod.mk.injEq] at hr
              exfalso
              rcases htg2 with he | he <;> rw [he] at hr
              · exact absurd hr.2 (by decide)
              · exact absurd hr.2 (by decide)
          · intro id t hid ht
            rw [settle_calls, List.mem_append] at hid
            rw [settle_pending, settle_timers]
            cases hid with
            | inl hl =>
              have := h.reply_done id t hl ht
              exact ⟨fun hc => this.1 (List.mem_of_mem_erase hc),
                     fun hc => this.2 (List.mem_of_mem_erase hc)⟩
            | inr hr =>
              simp only [List.mem_singleton, Prod.mk.injEq] at hr
              rw [hr.1]
              constructor
              · rw [h.timer_nodup.mem_erase_iff]; simp
              · rw [h.pend_nodup.mem_erase_iff]; simp
          · intro id hc
            rw [settle_calls] at hc
            obtain ⟨h1, h2⟩ := hc
            rw [List.mem_append] at h1 h2
            cases h1 with
            | inr h1r =>
              simp only [List.mem_singleton, Prod.mk.injEq] at h1r
              exfalso
              rcases htg2 with he | he <;> rw [he] at h1r
              · exact absurd h1r.2 (by decide)
              · exact absurd h1r.2 (by decide)
            | inl h1l =>
              cases h2 with
              | inl h2l => exact h.excl id ⟨h1l, h2l⟩
              | inr h2r =>
                simp only [List.mem_singleton, Prod.mk.injEq] at h2r
                have := (h.timeout_done id h1l).2
                rw [h2r.1] at this
                exact this hm
          · exact settle_keys_nodup _ mid _ h.keys_nodup
          · intro id hpos hle
            rw [settle_pending, settle_mem_keys]
            rw [settle_nextId] at hle
            cases h.coverage id hpos hle with
            | inr hs => exact Or.inr (Or.inl hs)
            | inl hp =>
              by_cases hidm : id = mid
              · exact Or.inr (Or.inr hidm)
              · left
                rw [h.pend_nodup.mem_erase_iff]
                exact ⟨hidm, hp⟩
          · intro id hid
            rw [settle_pending] at hid
            rw [settle_timers]
            rw [h.pend_nodup.mem_erase_iff] at hid
            rw [h.timer_nodup.mem_erase_iff]
            exact ⟨hid.1, h.pend_timer id hid.2⟩
        · rw [if_neg hm]; exact h
  | closeEvt =>
    rw [step]
    constructor
    · intro id hid
      rw [settleAll_pending] at hid
      simp at hid
    · intro id hid
      rw [settleAll_timers] at hid
      rw [settleAll_nextId]
      exact h.timer_bound id hid
    · intro p hp
      rw [settleAll_calls, List.mem_append] at hp
      rw [settleAll_nextId]
      cases hp with
      | inl hl => exact h.calls_bound p hl
      | inr hr =>
        obtain ⟨i, hi, rfl⟩ := List.mem_map.mp hr
        exact (h.pend_bound i hi).2
    · rw [settleAll_pending]; simp
    · rw [settleAll_timers]; exact h.timer_nodup
    · intro id hid
      rw [settleAll_calls, List.mem_append] at hid
      rw [settleAll_pending, settleAll_timers]
      cases hid with
      | inl hl =>
        have := h.timeout_done id hl
        exact ⟨this.1, by simp⟩
      | inr hr =>
        obtain ⟨i, hi, he⟩ := List.mem_map.mp hr
        have hts : ("reject_closed" : String) = "reject_timeout" := congrArg Prod.snd he
        exact absurd hts (by decide)
    · intro id t hid ht
      rw [settleAll_calls, List.mem_append] at hid
      rw [settleAll_pending, settleAll_timers]
      cases hid with
      | inl hl =>
        have := h.reply_done id t hl ht
        exact ⟨this.1, by simp⟩
      | inr hr =>
        obtain ⟨i, hi, he⟩ := List.mem_map.mp hr
        have hts : t = "reject_closed" := (congrArg Prod.snd he).symm
        exfalso
        rcases ht with rfl | rfl
        · exact absurd hts (by decide)
        · exact absurd hts (by decide)
    · intro id hc
      rw [settleAll_calls] at hc
      obtain ⟨h1, h2⟩ := hc
      rw [List.mem_append] at h1 h2
      cases h1 with
      | inr h1r =>
        obtain ⟨i, hi, he⟩ := List.mem_map.mp h1r
        have hts : ("reject_closed" : String) = "reject_timeout" := congrArg Prod.snd he
        exact absurd hts (by decide)
      | inl h1l =>
        cases h2 with
        | inl h2l => exact h.excl id ⟨h1l, h2l⟩
        | inr h2r =>
          obtain ⟨i, hi, he⟩ := List.mem_map.mp h2r
          have hts : ("reject_closed" : String) = "resolve" := congrArg Prod.snd he
          exact absurd hts (by decide)
    · exact settleAll_keys_nodup _ _ _ h.keys_nodup
    · intro id hpos hle
      rw [settleAll_pending, settleAll_mem_keys]
      rw [settleAll_nextId] at hle
      cases h.coverage id hpos hle with
      | inl hp => exact Or.inr (Or.inr hp)
      | inr hs => exact Or.inr (Or.inl hs)
    · intro id hid
      rw [settleAll_pending] at hid
      simp at hid

theorem InvP_run : ∀ (events : List TGEvent) (st : TGState), InvP st →
    InvP (run st events) := by
  intro events
  induction events with
  | nil => intro st h; exact h
  | cons e es ih =>
    intro st h
    exact ih (step st e) (InvP_step st e h)

/-- C9: in the Trust-Gate RPC client, along any event sequence from the
initial state: each promise is settled at most once (settled ids are
unique) and every allocated request id is either still pending or
settled; a timed-out request never also gets its resolve callback, so a
late reply after the timeout is dropped; connection close reject-calls
every still-pending request with the connection-closed error; a message
with a missing, zero or unknown correlation id leaves the client
unchanged (no throw, no callback); and every pending request has its
timeout scheduled. -/
theorem trustGate_request_lifecycle (events : List TGEvent) :
    ((run init events).settled.map Prod.fst).Nodup ∧
    (∀ id, 0 < id → id ≤ (run init events).nextId →
      id ∈ (run init events).pending ∨
        id ∈ ((run init events).settled.map Prod.fst)) ∧
    (∀ id, ¬((id, "reject_timeout") ∈ (run init events).calls ∧
        (id, "resolve") ∈ (run init events).calls)) ∧
    (∀ id, id ∈ (run init events).pending →
      (id, "reject_closed") ∈ (step (run init events) TGEvent.closeEvt).calls) ∧
    (∀ isError, step (run init events) (TGEvent.msgRecv none isError) =
      run init events) ∧
    (∀ isError, step (run init events) (TGEvent.msgRecv (some 0) isError) =
      run init events) ∧
    (∀ i isError, i ∉ (run init events).pending →
      step (run init events) (TGEvent.msgRecv (some i) isError) =
        run init events) ∧
    (∀ id, id ∈ (run init events).pending → id ∈ (run init events).timers) := by
  have hinv := InvP_run events init InvP_init
  refine ⟨hinv.keys_nodup, hinv.coverage, hinv.excl, ?_, ?_, ?_, ?_, hinv.pend_timer⟩
  · intro id hid
    rw [step, settleAll_calls, List.mem_append]
    right
    exact List.mem_map.mpr ⟨id, hid, rfl⟩
  · intro isError; rfl
  · intro isError
    simp [step]
  · intro i isError hnp
    rw [step]
    by_cases hz : i = 0
    · rw [if_pos hz]
    · rw [if_neg hz, if_neg hnp]

/-- C9 witness: after one `send`, request 1 is pending; closing the
connection reject-calls it with the connection-closed error. -/
theorem trustGate_request_lifecycle_witness :
    (1, "reject_closed") ∈ (step (run init [TGEvent.send]) TGEvent.closeEvt).calls :=
  (trustGate_request_lifecycle [TGEvent.send]).2.2.2.1 1 (by decide)

end TG

namespace Engine

/-- `AUTHORIZATION_TIME_FRAME` from `protocol/constants.ts`: 10 minutes
in milliseconds. -/
def AUTHORIZATION_TIME_FRAME : Nat := 600000

/-- JS truthiness of a nullable string: `null`/`undefined` and the
empty string are falsy. -/
def jsTruthyS : Option String → Bool
  | none => false
  | some s => s ≠ ""

/-- A `Session` of `liberion-auth.ts`.  `clientRef` is the connection
id of the bound socket (`session.client`); `authResult` the cached
token of a stored `{ token }` result; `declineResult` the cached
message of a stored `{ message }` result. -/
structure Session where
  clientRef : String
  sessionId : String
  address : Option String
  clientSessionId : Option String
  isBrowserSession : Bool
  authResult : Option String
  declineResult : Option String
deriving Repr, DecidableEq

/-- Engine state: the session table (an insertion-ordered association
list keyed by connection id, JS object semantics), the set of open
connections, and the pending per-connection session timeouts
`(fireAt, clientId)`. -/
structure EState where
  sessions : List (String × Session)
  openConns : List String
  timers : List (Nat × String)
deriving Repr, DecidableEq

def initState : EState := { sessions := [], openConns := [], timers := [] }

/-- Outbound wire messages, one constructor per object literal the
engine sends.  `cmdMsg` covers every message of shape
`(command, message)`. -/
inductive OutMsg where
  | errorMsg (message : String) (requestId : Option Nat)
  | initOk (linkWeb : String) (sessionId : String)
  | ready (data : List Nat) (requestId : Option Nat)
  | activated
  | cmdMsg (cmd : String) (message : String)
  | authResultMsg (cmd : String) (message : String) (token : Option String)
  | reconnectStatus (status : String)
  | healthOk
deriving Repr, DecidableEq

/-- Observable effects of a handler: sends, socket terminations, hook
invocations, and (instrumentation) the arguments of every
`checkSignature` verification call. -/
inductive Eff where
  | send (connId : String) (m : OutMsg)
  | closeConn (connId : String)
  | hookHello (address : Option String)
  | hookSuccess (address : Option String) (sessionId : String)
  | hookDecline (address : Option String) (reason : String) (message : String)
      (declinedBy : String) (sessionId : String)
  | verifyCall (msg : List Nat) (signature : List Nat)
deriving Repr, DecidableEq

/-- `this.sessions[k]` lookup. -/
def lookupS : List (String × Session) → String → Option Session
  | [], _ => none
  | (k', s) :: rest, k => if k' = k then some s else lookupS rest k

/-- `delete this.sessions[k]`. -/
def eraseKey : List (String × Session) → String → List (String × Session)
  | [], _ => []
  | (k', s) :: rest, k =>
    if k' = k then eraseKey rest k else (k', s) :: eraseKey rest k

/-- `this.sessions[k] = v`: replace in place if the key exists
(keeping its position), else append. -/
def setKey : List (String × Session) → String → Session → List (String × Session)
  | [], k, v => [(k, v)]
  | (k', s) :: rest, k, v =>
    if k' = k then (k, v) :: rest else (k', s) :: setKey rest k v

/-- Mutation of a session object found in the table: visible only while
the entry is still present (a JS object mutated after `delete` is
unreachable from the table). -/
def updateKey (tbl : List (String × Session)) (k : String) (v : Session) :
    List (String × Session) :=
  tbl.map (fun kv => if kv.1 = k then (k, v) else kv)

/-- `findSession('sessionId', sid)`: first entry in key order whose
session carries this `sessionId`, together with its key. -/
def findBySessionId (tbl : List (String × Session)) (sid : String) :
    Option (String × Session) :=
  tbl.find? (fun kv => kv.2.sessionId = sid)

/-- `findSession('clientSessionId', cs)`. -/
def findByCsid (tbl : List (String × Session)) (cs : String) :
    Option (String × Session) :=
  tbl.find? (fun kv => kv.2.clientSessionId = some cs)

/-- `this.send(client, data)`: only writes to an OPEN socket. -/
def sendIfOpen (st : EState) (cid : String) (m : OutMsg) : List Eff :=
  if cid ∈ st.openConns then [Eff.send cid m] else []

/-- `closeClient`: drop the connection's table entry and terminate the
socket. -/
def closeClient (st : EState) (cid : String) : EState × List Eff :=
  ({ st with sessions := eraseKey st.sessions cid,
             openConns := st.openConns.erase cid }, [Eff.closeConn cid])

/-- `finalResponse`: send if the socket is open, then `closeClient`. -/
def finalResponse (st : EState) (cid : String) (m : OutMsg) : EState × List Eff :=
  let e1 := sendIfOpen st cid m
  let c := closeClient st cid
  (c.1, e1 ++ c.2)

/-- `_requestId` is spread into the error envelope only when truthy. -/
def normReqId : Option Nat → Option Nat
  | some r => if r = 0 then none else some r
  | none => none

/-- `errorResponse`: an error envelope through `finalResponse`. -/
def errorResponse (st : EState) (cid : String) (err : String)
    (reqId : Option Nat) : EState × List Eff :=
  finalResponse st cid (OutMsg.errorMsg err (normReqId reqId))

/-- `newClient`: fresh session for a fresh connection (the minted
`clientId` and `sessionId` are the call's randomness), plus the
10-minute session timeout scheduled at connection time `t`. -/
def newClient (st : EState) (cid sid : String) (t : Nat) : EState :=
  { st with
    sessions := setKey st.sessions cid
      { clientRef := cid, sessionId := sid, address := none,
        clientSessionId := none, isBrowserSession := false,
        authResult := none, declineResult := none },
    openConns := cid :: st.openConns,
    timers := st.timers ++ [(t + AUTHORIZATION_TIME_FRAME, cid)] }

/-- `DECLINE_REASON` mapping of `responseFailed`. -/
def declineReasonOf : String → String
  | "declined" => "user_declined"
  | "timeout" => "timeout"
  | "connection_failed" => "error"
  | "error" => "error"
  | _ => "unknown"

/-- `responseFailed(client, data)`: invoke the decline hook with the
connection's own session and echo `(command, message)` as a final
response. -/
def responseFailed (st : EState) (cid : String) (command : String)
    (msgOpt : Option String) : EState × List Eff :=
  match lookupS st.sessions cid with
  | none => errorResponse st cid "Session not found" none
  | some s =>
    let message := if jsTruthyS msgOpt then msgOpt.getD "Authorization declined"
      else "Authorization declined"
    let reason := declineReasonOf command
    let isBrowser := s.clientRef = cid ∧ s.isBrowserSession = true
    let db := if isBrowser then "browser" else "wallet"
    let hookE := Eff.hookDecline s.address reason message db s.sessionId
    let f := finalResponse st cid (OutMsg.cmdMsg command message)
    (f.1, hookE :: f.2)

/-- `finalizeSession(clientId, isTimeout)`. -/
def finalizeSession (st : EState) (clientId : String) (isTimeout : Bool) :
    EState × List Eff :=
  match lookupS st.sessions clientId with
  | none => (st, [])
  | some s =>
    if isTimeout then
      responseFailed st s.clientRef "timeout" (some "Authorization timeout")
    else closeClient st s.clientRef

/-- The `request` catch handler: `errorResponse` on the offending
connection followed by non-timeout `finalizeSession`. -/
def requestCatch (st : EState) (cid : String) (errMsg : String) :
    EState × List Eff :=
  let r1 := errorResponse st cid errMsg none
  let r2 := finalizeSession r1.1 cid false
  (r2.1, r1.2 ++ r2.2)

/-- Substring test used by `responseInit`'s error classification. -/
def strIncludes (s sub : String) : Bool := decide (sub.toList <:+: s.toList)

/-- `responseInit`'s mapping of Trust-Gate failures to user-facing
messages. -/
def initErrorMessage (msg : String) : String :=
  if strIncludes msg "timeout" then
    "Authorization service timeout. Please try again."
  else if strIncludes msg "Failed to connect" then
    "Authorization service unavailable. Please try again later."
  else "Authorization service error. Please contact support."

/-- `responseInit`: on Trust-Gate success mark the session as a browser
session and answer with the QR link; a Trust-Gate failure is thrown and
lands in the `request` catch handler. -/
def responseInit (st : EState) (cid : String) (res : Except String String) :
    EState × List Eff :=
  match lookupS st.sessions cid with
  | none => requestCatch st cid "Cannot read properties of undefined"
  | some s =>
    match res with
    | .ok linkWeb =>
      let tbl := updateKey st.sessions cid ({ s with isBrowserSession := true })
      let st1 := { st with sessions := tbl }
      (st1, sendIfOpen st1 cid (OutMsg.initOk linkWeb s.sessionId))
    | .error msg => requestCatch st cid (initErrorMessage msg)

/-- `responseActivate`: decrypt and decode `(address, sessionId)` (the
outcome is the `decRes` parameter; a decryption or decoding throw lands
in the `request` catch handler), look the session up by `sessionId`,
refuse when `session.address` is truthy, otherwise set `address`, mint
`clientSessionId`, call the identity-check hook, answer READY to the
activating connection and push `activated` to the bound browser if it
is open. -/
def responseActivate (st : EState) (cid : String)
    (decRes : Except String (Option String × Option String))
    (reqId : Option Nat) (newCsid : String)
    (onHello : Option String → Bool) (encReady : Bool → List Nat) :
    EState × List Eff :=
  match decRes with
  | .error e => requestCatch st cid e
  | .ok (addrOpt, sidOpt) =>
    let target := match sidOpt with
      | none => none
      | some sid => findBySessionId st.sessions sid
    match target with
    | none => errorResponse st cid "Session not found" reqId
    | some (k, s) =>
      if jsTruthyS s.address then
        errorResponse st cid "Session already activated" reqId
      else
        let s' := { s with address := addrOpt, clientSessionId := some newCsid }
        let st1 := { st with sessions := updateKey st.sessions k s' }
        let isRegistered := onHello addrOpt
        let e1 := [Eff.hookHello addrOpt]
        let f := finalResponse st1 cid (OutMsg.ready (encReady isRegistered) reqId)
        let e3 := if s'.clientRef ∈ f.1.openConns then
            [Eff.send s'.clientRef OutMsg.activated]
          else []
        (f.1, e1 ++ f.2 ++ e3)

/-- The `responseAuth` catch handler: when a session was already
resolved and its bound browser socket is open, the browser receives the
error too (and is closed by `errorResponse`); the offending connection
always receives it. -/
def authCatch (st : EState) (cid : String) (found : Option (String × Session))
    (e : String) : EState × List Eff :=
  match found with
  | some (_, s) =>
    if s.clientRef ∈ st.openConns then
      let r1 := errorResponse st s.clientRef e none
      let r2 := errorResponse r1.1 cid e none
      (r2.1, r1.2 ++ r2.2)
    else errorResponse st cid e none
  | none => errorResponse st cid e none

/-- `responseAuth`: require the four fields, decrypt the payload (`dec`)
and decode `clientSessionId` (`decodeCsid`), validate it, resolve the
session, fetch the identity bundle and build the verifier (`initCrypto`
covers `getTokenFromIPFS` + `initUserCrypto`; failure carries the thrown
message), then `checkSignature` over the received encrypted payload and
signature (a `verifyCall` effect records the arguments; a `false`
verdict throws "Invalid signature").  On success invoke the success
hook, answer the wallet, cache the token when truthy, and deliver the
result to the bound browser if open. -/
def responseAuth (st : EState) (cid : String) (address : Option String)
    (payload signature : Option (List Nat)) (fieldsPresent : Bool)
    (dec : List Nat → Except String (List Nat))
    (decodeCsid : List Nat → Except String (Option String))
    (validate : String → Bool)
    (initCrypto : Except String (List Nat → List Nat → Bool))
    (onSuccess : Option String × Option String) : EState × List Eff :=
  if ¬(jsTruthyS address = true ∧ payload.isSome = true ∧
      signature.isSome = true ∧ fieldsPresent = true) then
    errorResponse st cid "Missing required parameters" none
  else
    match payload, signature with
    | some p, some sg =>
      (match dec p with
       | .error e => authCatch st cid none e
       | .ok bytes =>
         match decodeCsid bytes with
         | .error e => authCatch st cid none e
         | .ok none => authCatch st cid none "Invalid clientSessionId"
         | .ok (some cs) =>
           if cs = "" ∨ validate cs = false then
             authCatch st cid none "Invalid clientSessionId"
           else
             match findByCsid st.sessions cs with
             | none => errorResponse st cid "Session not found" none
             | some (k, s) =>
               match initCrypto with
               | .error e => authCatch st cid (some (k, s)) e
               | .ok verify =>
                 if verify p sg = false then
                   let ac := authCatch st cid (some (k, s)) "Invalid signature"
                   (ac.1, Eff.verifyCall p sg :: ac.2)
                 else
                   let token := onSuccess.1
                   let err := onSuccess.2
                   let wmsg := if jsTruthyS err then err.getD "welcome" else "welcome"
                   let wcmd := if jsTruthyS err then "error" else "auth"
                   let f1 := finalResponse st cid (OutMsg.cmdMsg wcmd wmsg)
                   let st2 := if jsTruthyS token then
                       let tbl := updateKey f1.1.sessions k
                         ({ s with authResult := token })
                       { f1.1 with sessions := tbl }
                     else f1.1
                   let bc := s.clientRef
                   let f3 :=
                     if bc ∈ st2.openConns then
                       finalResponse st2 bc (OutMsg.authResultMsg
                         (if jsTruthyS err then "error" else "auth_result") wmsg token)
                     else (st2, [])
                   (f3.1, Eff.verifyCall p sg :: Eff.hookSuccess address s.sessionId ::
                     (f1.2 ++ f3.2)))
    | _, _ => errorResponse st cid "Missing required parameters" none

/-- The payload-resolution of `responseDeclined`: best-effort decrypt,
decode and validate `clientSessionId`, then look the browser session
up; any failure resolves to nothing (logged in the source, never
thrown). -/
def declResolve (st : EState) (payload : Option (List Nat))
    (dec : List Nat → Except String (List Nat))
    (decodeCsid : List Nat → Except String (Option String))
    (validate : String → Bool) : Option (String × Session) :=
  match payload with
  | none => none
  | some p =>
    match dec p with
    | .error _ => none
    | .ok bytes =>
      match decodeCsid bytes with
      | .error _ => none
      | .ok none => none
      | .ok (some cs) =>
        if cs ≠ "" ∧ validate cs = true then findByCsid st.sessions cs
        else none

/-- `responseDeclined`: when the payload resolves to a browser session,
notify it if open or cache the decline for reconnect, invoke the
decline hook (reason user-declined, declined by the wallet), and echo
the declined acknowledgement; otherwise fall through to
`responseFailed` on the declining connection's own session. -/
def responseDeclined (st : EState) (cid : String) (payload : Option (List Nat))
    (msgOpt : Option String)
    (dec : List Nat → Except String (List Nat))
    (decodeCsid : List Nat → Except String (Option String))
    (validate : String → Bool) : EState × List Eff :=
  match declResolve st payload dec decodeCsid validate with
  | some (k, bs) =>
    let bc := bs.clientRef
    let r1 : EState × List Eff :=
      if bc ∈ st.openConns then
        (st, [Eff.send bc (OutMsg.cmdMsg "declined" "Authorization declined")])
      else
        let tbl := updateKey st.sessions k
          ({ bs with declineResult := some "Authorization declined" })
        ({ st with sessions := tbl }, [])
    let hookE := Eff.hookDecline bs.address "user_declined"
      "Authorization declined" "wallet" bs.sessionId
    let f := finalResponse r1.1 cid (OutMsg.cmdMsg "declined" "Authorization declined")
    (f.1, r1.2 ++ hookE :: f.2)
  | none => responseFailed st cid "declined" msgOpt

/-- `responseReconnect`: rebind the session found by `sessionId` to the
new connection (re-keying the table entry), replay a cached auth or
decline result, and answer a coarse status. -/
def responseReconnect (st : EState) (cid : String) (sidOpt : Option String) :
    EState × List Eff :=
  if jsTruthyS sidOpt = false then errorResponse st cid "sessionId required" none
  else
    match sidOpt with
    | none => errorResponse st cid "sessionId required" none
    | some sid =>
      match findBySessionId st.sessions sid with
      | none => errorResponse st cid "session_not_found" none
      | some (oldK, s) =>
        let s' := { s with clientRef := cid }
        let st1 := { st with sessions := setKey (eraseKey st.sessions oldK) cid s' }
        let ef1 := match s.authResult with
          | some t => sendIfOpen st1 cid (OutMsg.authResultMsg "auth_result" "welcome" (some t))
          | none => []
        let ef2 := match s.declineResult with
          | some m => sendIfOpen st1 cid (OutMsg.cmdMsg "declined" m)
          | none => []
        let status := if s.authResult.isSome then "completed"
          else if s.declineResult.isSome then "declined"
          else if jsTruthyS s.address then "activated"
          else "waiting"
        (st1, ef1 ++ ef2 ++ sendIfOpen st1 cid (OutMsg.reconnectStatus status))

/-- `handleClose`: a browser session without a cached auth result is
preserved for reconnect on any close; otherwise an abnormal close first
raises a synthetic connection-failed decline, and the entry is
removed. -/
def handleClose (st : EState) (cid : String) (code : Nat) : EState × List Eff :=
  let isNormal := code = 1000 ∨ code = 1001
  let st0 : EState := { st with openConns := st.openConns.erase cid }
  match lookupS st0.sessions cid with
  | none => (st0, [])
  | some s =>
    if s.isBrowserSession = true ∧ s.authResult = none then (st0, [])
    else if isNormal then
      ({ st0 with sessions := eraseKey st0.sessions cid }, [])
    else
      let r := responseFailed st0 cid "connection_failed" none
      ({ r.1 with sessions := eraseKey r.1.sessions cid }, r.2)

/-- The inbound events of the engine.  Each command event carries the
connection it arrives on, the raw fields of the decoded envelope, and
the outcome functions of the library and collaborator calls the handler
makes (decryption, msgpack decoding, uuid validation, identity-bundle
resolution + verifier construction, hooks). -/
inductive Event where
  | connect (cid sid : String) (t : Nat)
  | init (cid : String) (res : Except String String)
  | activate (cid : String) (decRes : Except String (Option String × Option String))
      (reqId : Option Nat) (newCsid : String) (onHello : Option String → Bool)
      (encReady : Bool → List Nat)
  | auth (cid : String) (address : Option String)
      (payload signature : Option (List Nat)) (fieldsPresent : Bool)
      (dec : List Nat → Except String (List Nat))
      (decodeCsid : List Nat → Except String (Option String))
      (validate : String → Bool)
      (initCrypto : Except String (List Nat → List Nat → Bool))
      (onSuccess : Option String × Option String)
  | declined (cid : String) (payload : Option (List Nat)) (msgOpt : Option String)
      (dec : List Nat → Except String (List Nat))
      (decodeCsid : List Nat → Except String (Option String))
      (validate : String → Bool)
  | reconnect (cid : String) (sidOpt : Option String)
  | health (cid : String)
  | unknownCmd (cid : String) (cmd : String)
  | closeEvt (cid : String) (code : Nat)
  | timerFire (fireAt : Nat) (cid : String)

/-- One engine step: dispatch of `readMessage` plus the connection,
close and timer events. -/
def step (st : EState) (e : Event) : EState × List Eff :=
  match e with
  | .connect cid sid t => (newClient st cid sid t, [])
  | .init cid res => responseInit st cid res
  | .activate cid decRes reqId ncs onH rdata =>
    responseActivate st cid decRes reqId ncs onH rdata
  | .auth cid a p sg f dec dc v ic os =>
    responseAuth st cid a p sg f dec dc v ic os
  | .declined cid p m dec dc v => responseDeclined st cid p m dec dc v
  | .reconnect cid sidOpt => responseReconnect st cid sidOpt
  | .health cid => (st, sendIfOpen st cid OutMsg.healthOk)
  | .unknownCmd cid c => errorResponse st cid ("Unknown command: " ++ c) none
  | .closeEvt cid code => handleClose st cid code
  | .timerFire fireAt cid =>
    if (fireAt, cid) ∈ st.timers then
      let st' := { st with timers := st.timers.erase (fireAt, cid) }
      match lookupS st'.sessions cid with
      | some _ => finalizeSession st' cid true
      | none => (st', [])
    else (st, [])

/-- Run a sequence of events, accumulating effects in order. -/
def run (st : EState) : List Event → EState × List Eff
  | [] => (st, [])
  | e :: es =>
    let (st1, ef1) := step st e
    let (st2, ef2) := run st1 es
    (st2, ef1 ++ ef2)

theorem mem_eraseKey : ∀ (tbl : List (String × Session)) (k : String)
    (kv : String × Session), kv ∈ eraseKey tbl k → kv ∈ tbl := by
  intro tbl
  induction tbl with
  | nil => intro k kv h; simp [eraseKey] at h
  | cons hd rest ih =>
    intro k kv h
    rw [eraseKey] at h
    by_cases he : hd.1 = k
    · rw [if_pos he] at h
      exact List.mem_cons_of_mem hd (ih k kv h)
    · rw [if_neg he] at h
      rcases List.mem_cons.mp h with rfl | hm
      · exact List.mem_cons_self _ _
      · exact List.mem_cons_of_mem hd (ih k kv hm)

theorem lookupS_eraseKey : ∀ (tbl : List (String × Session)) (k : String),
    lookupS (eraseKey tbl k) k = none := by
  intro tbl
  induction tbl with
  | nil => intro k; rfl
  | cons hd rest ih =>
    intro k
    rw [eraseKey]
    by_cases he : hd.1 = k
    · rw [if_pos he]; exact ih k
    · rw [if_neg he, lookupS, if_neg he]; exact ih k

theorem errorResponse_effs (st : EState) (cid : String) (msg : String)
    (reqId : Option Nat) :
    (errorResponse st cid msg reqId).2 =
      (if cid ∈ st.openConns then
        [Eff.send cid (OutMsg.errorMsg msg (normReqId reqId))] else []) ++
      [Eff.closeConn cid] := rfl

theorem errorResponse_state (st : EState) (cid : String) (msg : String)
    (reqId : Option Nat) :
    (errorResponse st cid msg reqId).1 =
      { st with sessions := eraseKey st.sessions cid,
                openConns := st.openConns.erase cid } := rfl

theorem mem_errorResponse_effs (st : EState) (cid : String) (msg : String)
    (reqId : Option Nat) (e : Eff) (h : e ∈ (errorResponse st cid msg reqId).2) :
    e = Eff.send cid (OutMsg.errorMsg msg (normReqId reqId)) ∨
      e = Eff.closeConn cid := by
  rw [errorResponse_effs] at h
  rw [List.mem_append] at h
  cases h with
  | inl hl =>
    by_cases ho : cid ∈ st.openConns
    · rw [if_pos ho] at hl
      exact Or.inl (List.mem_singleton.mp hl)
    · rw [if_neg ho] at hl
      simp at hl
  | inr hr => exact Or.inr (List.mem_singleton.mp hr)

theorem errorResponse_sends (st : EState) (cid : String) (msg : String)
    (reqId : Option Nat) (h : cid ∈ st.openConns) :
    Eff.send cid (OutMsg.errorMsg msg (normReqId reqId)) ∈
      (errorResponse st cid msg reqId).2 := by
  rw [errorResponse_effs, if_pos h]
  simp

/-- C1 amended: if a session's `address` is a non-empty string, a
subsequent `activate` targeting it by `sessionId` answers the error
"Session already activated" and closes the activating connection; no
session's `address` in the table is mutated by that step.  (The
truthiness guard means an empty-string `address` does not count as
activated; see the counterexample.) -/
theorem activate_on_nonempty_address_fails (st : EState) (cid : String)
    (addrOpt : Option String) (sid : String) (reqId : Option Nat) (ncs : String)
    (onH : Option String → Bool) (encR : Bool → List Nat)
    (k : String) (s : Session) (a : String)
    (hfind : findBySessionId st.sessions sid = some (k, s))
    (haddr : s.address = some a) (hne : a ≠ "") :
    (responseActivate st cid (Except.ok (addrOpt, some sid)) reqId ncs onH encR).1.sessions
      = eraseKey st.sessions cid ∧
    (responseActivate st cid (Except.ok (addrOpt, some sid)) reqId ncs onH encR).2
      = (if cid ∈ st.openConns then
          [Eff.send cid (OutMsg.errorMsg "Session already activated" (normReqId reqId))]
        else []) ++ [Eff.closeConn cid] ∧
    ∀ kv ∈ (responseActivate st cid (Except.ok (addrOpt, some sid)) reqId ncs onH encR).1.sessions,
      ∃ s₀, (kv.1, s₀) ∈ st.sessions ∧ kv.2.address = s₀.address := by
  have hj : jsTruthyS s.address = true := by
    rw [haddr]
    simp [jsTruthyS, hne]
  have hres : responseActivate st cid (Except.ok (addrOpt, some sid)) reqId ncs onH encR
      = errorResponse st cid "Session already activated" reqId := by
    rw [responseActivate]
    simp only [hfind, hj, if_true]
  rw [hres, errorResponse_state, errorResponse_effs]
  refine ⟨rfl, rfl, ?_⟩
  intro kv hkv
  exact ⟨kv.2, mem_eraseKey _ _ _ hkv, rfl⟩

/-- Concrete activated session for the C1 amended witness. -/
def c1WSession : Session :=
  { clientRef := "A", sessionId := "sA", address := some "0xabc",
    clientSessionId := some "cs1", isBrowserSession := true,
    authResult := none, declineResult := none }

/-- Concrete state for the C1 amended witness. -/
def c1WState : EState :=
  { sessions := [("A", c1WSession)], openConns := ["A", "W"], timers := [] }

/-- C1 amended witness at a concrete activated session. -/
theorem activate_on_nonempty_address_fails_witness :
    (responseActivate c1WState "W" (Except.ok (some "0xother", some "sA"))
      none "cs2" (fun _ => false) (fun _ => [])).2
    = (if "W" ∈ c1WState.openConns then
        [Eff.send "W" (OutMsg.errorMsg "Session already activated" (normReqId none))]
      else []) ++ [Eff.closeConn "W"] :=
  (activate_on_nonempty_address_fails c1WState "W" (some "0xother") "sA" none "cs2"
    (fun _ => false) (fun _ => []) "A" c1WSession "0xabc"
    (by decide) rfl (by decide)).2.1

/-- The reachable C1 counterexample trace: a session is activated with
an empty-string address, then activated again. -/
def c1Events : List Event :=
  [Event.connect "A" "sA" 0,
   Event.connect "B" "sB" 0,
   Event.activate "B" (Except.ok (some "", some "sA")) none "cs1"
     (fun _ => true) (fun _ => []),
   Event.connect "C" "sC" 0,
   Event.activate "C" (Except.ok (some "0xabc", some "sA")) none "cs2"
     (fun _ => true) (fun _ => [])]

def isAlreadyActivatedError : Eff → Bool
  | .send _ (.errorMsg m _) => m = "Session already activated"
  | _ => false

/-- C1 counterexample: after an `activate` carrying an empty-string
address, the session's `address` is set (non-null), yet a second
`activate` on the same `sessionId` succeeds — it overwrites `address`
and never answers "Session already activated" — because the guard tests
JS truthiness, not nullness.  So `address` is written twice on this
trace. -/
theorem activate_overwrites_set_address :
    ((findBySessionId (run initState (c1Events.take 3)).1.sessions "sA").map
      (fun kv => kv.2.address) = some (some "")) ∧
    ((findBySessionId (run initState c1Events).1.sessions "sA").map
      (fun kv => kv.2.address) = some (some "0xabc")) ∧
    (run initState c1Events).2.countP isAlreadyActivatedError = 0 := by
  decide

theorem mem_finalResponse_effs (st : EState) (cid : String) (m : OutMsg) (eff : Eff)
    (h : eff ∈ (finalResponse st cid m).2) :
    eff = Eff.send cid m ∨ eff = Eff.closeConn cid := by
  rw [finalResponse] at h
  simp only [closeClient, List.mem_append] at h
  cases h with
  | inl hl =>
    rw [sendIfOpen] at hl
    by_cases ho : cid ∈ st.openConns
    · rw [if_pos ho] at hl
      exact Or.inl (List.mem_singleton.mp hl)
    · rw [if_neg ho] at hl
      simp at hl
  | inr hr => exact Or.inr (List.mem_singleton.mp hr)

theorem mem_authCatch_effs (st : EState) (cid : String)
    (found : Option (String × Session)) (msg : String) (eff : Eff)
    (h : eff ∈ (authCatch st cid found msg).2) :
    (∃ c r', eff = Eff.send c (OutMsg.errorMsg msg r')) ∨
      ∃ c, eff = Eff.closeConn c := by
  match found with
  | none =>
    rcases mem_errorResponse_effs _ _ _ _ _ h with he | he
    · exact Or.inl ⟨cid, _, he⟩
    · exact Or.inr ⟨cid, he⟩
  | some (k, s) =>
    rw [authCatch] at h
    by_cases hb : s.clientRef ∈ st.openConns
    · rw [if_pos hb] at h
      simp only [List.mem_append] at h
      cases h with
      | inl hl =>
        rcases mem_errorResponse_effs _ _ _ _ _ hl with he | he
        · exact Or.inl ⟨s.clientRef, _, he⟩
        · exact Or.inr ⟨s.clientRef, he⟩
      | inr hr =>
        rcases mem_errorResponse_effs _ _ _ _ _ hr with he | he
        · exact Or.inl ⟨cid, _, he⟩
        · exact Or.inr ⟨cid, he⟩
    · rw [if_neg hb] at h
      rcases mem_errorResponse_effs _ _ _ _ _ h with he | he
      · exact Or.inl ⟨cid, _, he⟩
      · exact Or.inr ⟨cid, he⟩

theorem authCatch_sends_caller (st : EState) (cid : String)
    (found : Option (String × Session)) (msg : String)
    (h : cid ∈ st.openConns) :
    Eff.send cid (OutMsg.errorMsg msg none) ∈ (authCatch st cid found msg).2 := by
  have hn : normReqId none = none := rfl
  match found with
  | none =>
    have he := errorResponse_sends st cid msg none h
    rwa [hn] at he
  | some (k, s) =>
    rw [authCatch]
    by_cases hb : s.clientRef ∈ st.openConns
    · rw [if_pos hb]
      simp only [List.mem_append]
      by_cases hcb : cid = s.clientRef
      · left
        rw [hcb] at h ⊢
        have he := errorResponse_sends st s.clientRef msg none h
        rwa [hn] at he
      · right
        have hmem : cid ∈ (errorResponse st s.clientRef msg none).1.openConns := by
          rw [errorResponse_state]
          exact (List.mem_erase_of_ne hcb).mpr h
        have he := errorResponse_sends _ cid msg none hmem
        rwa [hn] at he
    · rw [if_neg hb]
      have he := errorResponse_sends st cid msg none h
      rwa [hn] at he

theorem mem_ite_pair_effs {c : Prop} [Decidable c] (x : EState × List Eff)
    (st2 : EState) (eff : Eff)
    (h : eff ∈ (if c then x else (st2, ([] : List Eff))).2) : eff ∈ x.2 := by
  by_cases hc : c
  · rwa [if_pos hc] at h
  · rw [if_neg hc] at h
    simp at h

/-- Exhaustive outcome classification of `responseAuth` on a request
with both payload and signature present, used by the C2 theorem. -/
theorem responseAuth_shape (st : EState) (cid : String) (address : Option String)
    (p sg : List Nat) (fieldsPresent : Bool)
    (dec : List Nat → Except String (List Nat))
    (decodeCsid : List Nat → Except String (Option String))
    (validate : String → Bool)
    (initCrypto : Except String (List Nat → List Nat → Bool))
    (onSuccess : Option String × Option String) :
    (∃ msg, responseAuth st cid address (some p) (some sg) fieldsPresent
        dec decodeCsid validate initCrypto onSuccess = errorResponse st cid msg none) ∨
    (∃ e found, responseAuth st cid address (some p) (some sg) fieldsPresent
        dec decodeCsid validate initCrypto onSuccess = authCatch st cid found e) ∨
    (∃ k s vf, initCrypto = Except.ok vf ∧ vf p sg = false ∧
      responseAuth st cid address (some p) (some sg) fieldsPresent
          dec decodeCsid validate initCrypto onSuccess =
        ((authCatch st cid (some (k, s)) "Invalid signature").1,
         Eff.verifyCall p sg :: (authCatch st cid (some (k, s)) "Invalid signature").2)) ∨
    (∃ vf sid rest, initCrypto = Except.ok vf ∧ vf p sg ≠ false ∧
      (responseAuth st cid address (some p) (some sg) fieldsPresent
          dec decodeCsid validate initCrypto onSuccess).2 =
        Eff.verifyCall p sg :: Eff.hookSuccess address sid :: rest ∧
      ∀ eff ∈ rest, (∃ c m, eff = Eff.send c m) ∨ ∃ c, eff = Eff.closeConn c) := by
  by_cases hpres : jsTruthyS address = true ∧ (some p : Option (List Nat)).isSome = true ∧
      (some sg : Option (List Nat)).isSome = true ∧ fieldsPresent = true
  · cases hd : dec p with
    | error e =>
      simp only [responseAuth, hpres, hd, not_true, if_false, and_true, and_self]
      exact Or.inr (Or.inl ⟨e, none, rfl⟩)
    | ok bytes =>
      cases hc : decodeCsid bytes with
      | error e =>
        simp only [responseAuth, hpres, hd, hc, not_true, if_false, and_true, and_self]
        exact Or.inr (Or.inl ⟨e, none, rfl⟩)
      | ok csOpt =>
        cases csOpt with
        | none =>
          simp only [responseAuth, hpres, hd, hc, not_true, if_false, and_true, and_self]
          exact Or.inr (Or.inl ⟨"Invalid clientSessionId", none, rfl⟩)
        | some cs =>
          by_cases hcs : cs = "" ∨ validate cs = false
          · simp only [responseAuth, hpres, hd, hc, hcs, not_true, if_false, if_true,
              and_true, and_self]
            exact Or.inr (Or.inl ⟨"Invalid clientSessionId", none, rfl⟩)
          · cases hf : findByCsid st.sessions cs with
            | none =>
              simp only [responseAuth, hpres, hd, hc, hcs, hf, not_true, if_false,
                and_true, and_self]
              exact Or.inl ⟨"Session not found", rfl⟩
            | some ks =>
              obtain ⟨k, s⟩ := ks
              cases hic : initCrypto with
              | error e =>
                simp only [responseAuth, hpres, hd, hc, hcs, hf, hic, not_true,
                  if_false, and_true, and_self]
                exact Or.inr (Or.inl ⟨e, some (k, s), rfl⟩)
              | ok vf =>
                by_cases hv : vf p sg = false
                · simp only [responseAuth, hpres, hd, hc, hcs, hf, hic, hv, not_true,
                    if_false, if_true, and_true, and_self]
                  exact Or.inr (Or.inr (Or.inl ⟨k, s, vf, rfl, hv, rfl⟩))
                · simp only [responseAuth, hpres, hd, hc, hcs, hf, hic, hv, not_true,
                    if_false, and_true, and_self]
                  refine Or.inr (Or.inr (Or.inr ⟨vf, s.sessionId, _, rfl, hv, rfl, ?_⟩))
                  intro eff heff
                  simp only [List.mem_append] at heff
                  cases heff with
                  | inl h1 =>
                    rcases mem_finalResponse_effs _ _ _ _ h1 with he | he
                    · exact Or.inl ⟨cid, _, he⟩
                    · exact Or.inr ⟨cid, he⟩
                  | inr h3 =>
                    have h3' := mem_ite_pair_effs _ _ _ h3
                    rcases mem_finalResponse_effs _ _ _ _ h3' with he | he
                    · exact Or.inl ⟨s.clientRef, _, he⟩
                    · exact Or.inr ⟨s.clientRef, he⟩
  · rw [responseAuth, if_pos hpres]
    exact Or.inl ⟨"Missing required parameters", rfl⟩

/-- C2: on every `auth` command, the signature verification call uses
exactly the received encrypted payload bytes and the received signature
bytes (never the decrypted plaintext); and whenever the verifier
rejects, the success hook is not invoked and the caller — if its socket
is open — receives the error "Invalid signature". -/
theorem auth_signature_over_encrypted_payload (st : EState) (cid : String)
    (address : Option String) (p sg : List Nat) (fieldsPresent : Bool)
    (dec : List Nat → Except String (List Nat))
    (decodeCsid : List Nat → Except String (Option String))
    (validate : String → Bool)
    (initCrypto : Except String (List Nat → List Nat → Bool))
    (onSuccess : Option String × Option String) :
    (∀ m s', Eff.verifyCall m s' ∈
        (responseAuth st cid address (some p) (some sg) fieldsPresent
          dec decodeCsid validate initCrypto onSuccess).2 → m = p ∧ s' = sg) ∧
    (∀ vf, initCrypto = Except.ok vf → vf p sg = false →
      Eff.verifyCall p sg ∈ (responseAuth st cid address (some p) (some sg)
        fieldsPresent dec decodeCsid validate initCrypto onSuccess).2 →
      (∀ a sid, Eff.hookSuccess a sid ∉
        (responseAuth st cid address (some p) (some sg) fieldsPresent
          dec decodeCsid validate initCrypto onSuccess).2) ∧
      (cid ∈ st.openConns →
        Eff.send cid (OutMsg.errorMsg "Invalid signature" none) ∈
          (responseAuth st cid address (some p) (some sg) fieldsPresent
            dec decodeCsid validate initCrypto onSuccess).2)) := by
  have hshape := responseAuth_shape st cid address p sg fieldsPresent
    dec decodeCsid validate initCrypto onSuccess
  constructor
  · intro m s' hm
    rcases hshape with ⟨msg, heq⟩ | ⟨e, found, heq⟩ | ⟨k, s, vf, hic, hv, heq⟩ |
      ⟨vf, sid, rest, hic, hv, heq, hrest⟩
    · rw [heq] at hm
      rcases mem_errorResponse_effs _ _ _ _ _ hm with he | he <;> simp at he
    · rw [heq] at hm
      rcases mem_authCatch_effs _ _ _ _ _ hm with ⟨c, r', he⟩ | ⟨c, he⟩ <;> simp at he
    · rw [heq] at hm
      simp only [List.mem_cons] at hm
      rcases hm with he | hm2
      · simp only [Eff.verifyCall.injEq] at he
        exact he
      · rcases mem_authCatch_effs _ _ _ _ _ hm2 with ⟨c, r', he⟩ | ⟨c, he⟩ <;> simp at he
    · rw [heq] at hm
      simp only [List.mem_cons] at hm
      rcases hm with he | he | hm2
      · simp only [Eff.verifyCall.injEq] at he
        exact he
      · simp at he
      · rcases hrest _ hm2 with ⟨c, mm, he⟩ | ⟨c, he⟩ <;> simp at he
  · intro vf hic hvf hcall
    rcases hshape with ⟨msg, heq⟩ | ⟨e, found, heq⟩ | ⟨k, s, vf', hic', hv', heq⟩ |
      ⟨vf', sid, rest, hic', hv', heq, hrest⟩
    · rw [heq] at hcall
      rcases mem_errorResponse_effs _ _ _ _ _ hcall with he | he <;> simp at he
    · rw [heq] at hcall
      rcases mem_authCatch_effs _ _ _ _ _ hcall with ⟨c, r', he⟩ | ⟨c, he⟩ <;> simp at he
    · constructor
      · intro a sid hmem
        rw [heq] at hmem
        simp only [List.mem_cons] at hmem
        rcases hmem with he | hm2
        · simp at he
        · rcases mem_authCatch_effs _ _ _ _ _ hm2 with ⟨c, r', he⟩ | ⟨c, he⟩ <;> simp at he
      · intro hopen
        rw [heq]
        exact List.mem_cons_of_mem _
          (authCatch_sends_caller st cid (some (k, s)) "Invalid signature" hopen)
    · rw [hic] at hic'
      injection hic' with hvv
      rw [hvv] at hvf
      exact absurd hvf hv'

/-- Concrete activated session for the C2 witness. -/
def c2WSession : Session :=
  { clientRef := "A", sessionId := "sA", address := some "0x1",
    clientSessionId := some "cs", isBrowserSession := true,
    authResult := none, declineResult := none }

/-- Concrete state for the C2 witness. -/
def c2WState : EState :=
  { sessions := [("A", c2WSession)], openConns := ["W"], timers := [] }

/-- C2 witness: a rejecting verifier makes the caller receive
"Invalid signature". -/
theorem auth_signature_over_encrypted_payload_witness :
    Eff.send "W" (OutMsg.errorMsg "Invalid signature" none) ∈
      (responseAuth c2WState "W" (some "0x1") (some [1]) (some [2]) true
        (fun _ => Except.ok [9]) (fun _ => Except.ok (some "cs")) (fun _ => true)
        (Except.ok (fun _ _ => false)) (none, none)).2 :=
  ((auth_signature_over_encrypted_payload c2WState "W" (some "0x1") [1] [2] true
      (fun _ => Except.ok [9]) (fun _ => Except.ok (some "cs")) (fun _ => true)
      (Except.ok (fun _ _ => false)) (none, none)).2
    (fun _ _ => false) rfl rfl (by decide)).2 (by decide)

theorem mem_sendIfOpen (st : EState) (cid : String) (m : OutMsg) (eff : Eff)
    (h : eff ∈ sendIfOpen st cid m) : eff = Eff.send cid m := by
  rw [sendIfOpen] at h
  by_cases ho : cid ∈ st.openConns
  · rw [if_pos ho] at h
    exact List.mem_singleton.mp h
  · rw [if_neg ho] at h
    simp at h

theorem mem_responseReconnect_effs (st : EState) (cid : String)
    (sidOpt : Option String) (eff : Eff)
    (h : eff ∈ (responseReconnect st cid sidOpt).2) :
    (∃ c m, eff = Eff.send c m) ∨ ∃ c, eff = Eff.closeConn c := by
  by_cases ht : jsTruthyS sidOpt = false
  · simp only [responseReconnect.eq_def, ht, if_true] at h
    rcases mem_errorResponse_effs _ _ _ _ _ h with he | he
    · exact Or.inl ⟨cid, _, he⟩
    · exact Or.inr ⟨cid, he⟩
  · cases sidOpt with
    | none => exact absurd rfl ht
    | some sid =>
      cases hf : findBySessionId st.sessions sid with
      | none =>
        simp only [responseReconnect.eq_def, ht, if_false, hf] at h
        rcases mem_errorResponse_effs _ _ _ _ _ h with he | he
        · exact Or.inl ⟨cid, _, he⟩
        · exact Or.inr ⟨cid, he⟩
      | some ks =>
        obtain ⟨oldK, s⟩ := ks
        cases hA : s.authResult with
        | none =>
          cases hD : s.declineResult with
          | none =>
            simp only [responseReconnect.eq_def, ht, if_false, hf, hA, hD] at h
            rcases List.mem_append.mp h with h12 | h3
            · rcases List.mem_append.mp h12 with h1 | h2
              · simp at h1
              · simp at h2
            · exact Or.inl ⟨cid, _, mem_sendIfOpen _ _ _ _ h3⟩
          | some m =>
            simp only [responseReconnect.eq_def, ht, if_false, hf, hA, hD] at h
            rcases List.mem_append.mp h with h12 | h3
            · rcases List.mem_append.mp h12 with h1 | h2
              · simp at h1
              · exact Or.inl ⟨cid, _, mem_sendIfOpen _ _ _ _ h2⟩
            · exact Or.inl ⟨cid, _, mem_sendIfOpen _ _ _ _ h3⟩
        | some t =>
          cases hD : s.declineResult with
          | none =>
            simp only [responseReconnect.eq_def, ht, if_false, hf, hA, hD] at h
            rcases List.mem_append.mp h with h12 | h3
            · rcases List.mem_append.mp h12 with h1 | h2
              · exact Or.inl ⟨cid, _, mem_sendIfOpen _ _ _ _ h1⟩
              · simp at h2
            · exact Or.inl ⟨cid, _, mem_sendIfOpen _ _ _ _ h3⟩
          | some m =>
            simp only [responseReconnect.eq_def, ht, if_false, hf, hA, hD] at h
            rcases List.mem_append.mp h with h12 | h3
            · rcases List.mem_append.mp h12 with h1 | h2
              · exact Or.inl ⟨cid, _, mem_sendIfOpen _ _ _ _ h1⟩
              · exact Or.inl ⟨cid, _, mem_sendIfOpen _ _ _ _ h2⟩
            · exact Or.inl ⟨cid, _, mem_sendIfOpen _ _ _ _ h3⟩

/-- C3 amended: `responseReconnect` never invokes the success hook, and
for a session holding a cached `authResult` it replays exactly the
stored result (an `auth_result` envelope with message "welcome" and the
stored token) to the reconnecting connection. -/
theorem reconnect_replays_cached_result_without_success_hook
    (st : EState) (cid : String) (sidOpt : Option String) :
    (∀ a sid, Eff.hookSuccess a sid ∉ (responseReconnect st cid sidOpt).2) ∧
    (∀ sid k s t, sidOpt = some sid → sid ≠ "" →
      findBySessionId st.sessions sid = some (k, s) → s.authResult = some t →
      cid ∈ st.openConns →
      Eff.send cid (OutMsg.authResultMsg "auth_result" "welcome" (some t)) ∈
        (responseReconnect st cid sidOpt).2) := by
  constructor
  · intro a sid hmem
    rcases mem_responseReconnect_effs _ _ _ _ hmem with ⟨c, m, he⟩ | ⟨c, he⟩ <;> simp at he
  · intro sid k s t hsid hne hf hA hopen
    subst hsid
    have hj : ¬(jsTruthyS (some sid) = false) := by simp [jsTruthyS, hne]
    simp only [responseReconnect.eq_def, hj, if_false, hf, hA, sendIfOpen, List.mem_append]
    simp [hopen]

/-- Concrete state for the C3 amended witness: a preserved browser
session with a cached auth token, and a reconnecting connection R. -/
def c3WState : EState :=
  { sessions := [("A",
      { clientRef := "A", sessionId := "sA", address := some "0x1",
        clientSessionId := some "cs", isBrowserSession := true,
        authResult := some "tok", declineResult := none })],
    openConns := ["R"], timers := [] }

/-- C3 amended witness: the reconnect replays the stored token. -/
theorem reconnect_replays_cached_result_witness :
    Eff.send "R" (OutMsg.authResultMsg "auth_result" "welcome" (some "tok")) ∈
      (responseReconnect c3WState "R" (some "sA")).2 :=
  (reconnect_replays_cached_result_without_success_hook c3WState "R" (some "sA")).2
    "sA" "A"
    { clientRef := "A", sessionId := "sA", address := some "0x1",
      clientSessionId := some "cs", isBrowserSession := true,
      authResult := some "tok", declineResult := none }
    "tok" rfl (by decide) (by decide) rfl (by decide)

/-- The C3 counterexample trace: a browser session is initialized and
activated, the browser drops (preserved), and the wallet's `auth`
command is then delivered twice with the same encrypted payload and a
verifier that accepts it both times. -/
def c3Events : List Event :=
  [Event.connect "A" "sA" 0,
   Event.init "A" (Except.ok "link"),
   Event.connect "B" "sB" 0,
   Event.activate "B" (Except.ok (some "0xaddr", some "sA")) none "cs1"
     (fun _ => true) (fun _ => []),
   Event.closeEvt "A" 1006,
   Event.connect "C" "sC" 1000,
   Event.auth "C" (some "0xaddr") (some [1]) (some [2]) true
     (fun _ => Except.ok [9]) (fun _ => Except.ok (some "cs1")) (fun _ => true)
     (Except.ok (fun _ _ => true)) (none, none),
   Event.connect "D" "sD" 2000,
   Event.auth "D" (some "0xaddr") (some [1]) (some [2]) true
     (fun _ => Except.ok [9]) (fun _ => Except.ok (some "cs1")) (fun _ => true)
     (Except.ok (fun _ _ => true)) (none, none)]

/-- C3 counterexample: on this trace the success hook fires twice for
the same session `sA` — a replayed `auth` command on a still-resolvable
session re-invokes the hook, so it is not invoked at most once per
transaction. -/
theorem success_hook_invoked_twice_on_auth_replay :
    ((run initState c3Events).2.count (Eff.hookSuccess (some "0xaddr") "sA")) = 2 := by
  decide

/-- C6 amended: when the 10-minute timer of the connection currently
keying a session fires, the session is finalized: the decline hook is
invoked exactly once with reason `timeout` and message "Authorization
timeout", the timeout envelope is sent to the bound connection if it is
open, and the session is removed and its connection terminated. -/
theorem timer_finalizes_keyed_session (st : EState) (T : Nat) (cid : String)
    (s : Session)
    (ht : (T, cid) ∈ st.timers)
    (hs : lookupS st.sessions cid = some s)
    (href : s.clientRef = cid) :
    (step st (Event.timerFire T cid)).2 =
      Eff.hookDecline s.address "timeout" "Authorization timeout"
        (if s.isBrowserSession = true then "browser" else "wallet") s.sessionId ::
      ((if cid ∈ st.openConns then
          [Eff.send cid (OutMsg.cmdMsg "timeout" "Authorization timeout")]
        else []) ++ [Eff.closeConn cid]) ∧
    lookupS (step st (Event.timerFire T cid)).1.sessions cid = none ∧
    (step st (Event.timerFire T cid)).1.sessions = eraseKey st.sessions cid := by
  have hlook2 : lookupS ({ st with timers := st.timers.erase (T, cid) } : EState).sessions cid
      = some s := hs
  have h1 : step st (Event.timerFire T cid)
      = finalizeSession { st with timers := st.timers.erase (T, cid) } cid true := by
    simp only [step, ht, if_true, hlook2]
  have h2 : finalizeSession { st with timers := st.timers.erase (T, cid) } cid true
      = responseFailed { st with timers := st.timers.erase (T, cid) } cid "timeout"
          (some "Authorization timeout") := by
    simp only [finalizeSession, hlook2, href, if_true]
  have hdb : (if s.clientRef = cid ∧ s.isBrowserSession = true then "browser" else "wallet")
      = (if s.isBrowserSession = true then "browser" else "wallet") := by
    simp [href]
  have h3a : (responseFailed { st with timers := st.timers.erase (T, cid) } cid "timeout"
        (some "Authorization timeout")).2
      = Eff.hookDecline s.address "timeout" "Authorization timeout"
          (if s.clientRef = cid ∧ s.isBrowserSession = true then "browser" else "wallet")
          s.sessionId ::
        ((if cid ∈ st.openConns then
            [Eff.send cid (OutMsg.cmdMsg "timeout" "Authorization timeout")]
          else []) ++ [Eff.closeConn cid]) := by
    simp only [responseFailed, hlook2]
    rfl
  have h3b : (responseFailed { st with timers := st.timers.erase (T, cid) } cid "timeout"
        (some "Authorization timeout")).1.sessions = eraseKey st.sessions cid := by
    simp only [responseFailed, hlook2]
    rfl
  refine ⟨?_, ?_, ?_⟩
  · rw [h1, h2, h3a, hdb]
  · rw [h1, h2, h3b]
    exact lookupS_eraseKey st.sessions cid
  · rw [h1, h2, h3b]

/-- Concrete state for the C6 amended witness. -/
def c6WState : EState :=
  { sessions := [("A",
      { clientRef := "A", sessionId := "sA", address := none,
        clientSessionId := none, isBrowserSession := true,
        authResult := none, declineResult := none })],
    openConns := ["A"], timers := [(600000, "A")] }

/-- C6 amended witness: the timer fire removes the keyed session. -/
theorem timer_finalizes_keyed_session_witness :
    lookupS (step c6WState (Event.timerFire 600000 "A")).1.sessions "A" = none :=
  (timer_finalizes_keyed_session c6WState 600000 "A"
    { clientRef := "A", sessionId := "sA", address := none,
      clientSessionId := none, isBrowserSession := true,
      authResult := none, declineResult := none }
    (by decide) (by decide) rfl).2.1

def isTimeoutDecline : Eff → Bool
  | .hookDecline _ r _ _ _ => r = "timeout"
  | _ => false

/-- The C6 counterexample trace: browser session created at t = 0
(timer at 600000 for connection A), browser drops and reconnects at
t = 300000 on connection C (which got its own timer at 900000); the
session is re-keyed to C, so A's timer at 600000 finds nothing. -/
def c6Events : List Event :=
  [Event.connect "A" "sA" 0,
   Event.init "A" (Except.ok "link"),
   Event.closeEvt "A" 1006,
   Event.connect "C" "sC" 300000,
   Event.reconnect "C" (some "sA"),
   Event.timerFire 600000 "A"]

/-- C6 counterexample: the session created at time 0 still exists after
its creation-time deadline 600000 has passed — every timer scheduled at
or before 600000 has fired (only (900000, C) remains) and no timeout
finalization happened.  The deadline is per connection, reset by
reconnect, not absolute from session creation. -/
theorem session_outlives_creation_deadline :
    ((findBySessionId (run initState c6Events).1.sessions "sA").isSome = true) ∧
    ((run initState c6Events).2.countP isTimeoutDecline = 0) ∧
    ((run initState c6Events).1.timers = [(900000, "C")]) := by
  decide

/-- C7 amended: on connection close, the session entry survives exactly
when the session is browser-role with no cached `authResult`; a cached
`declineResult` plays no part in the preservation decision. -/
theorem close_removes_iff_no_preserved_browser (st : EState) (cid : String)
    (code : Nat) (s : Session) (hs : lookupS st.sessions cid = some s) :
    lookupS (handleClose st cid code).1.sessions cid =
      (if s.isBrowserSession = true ∧ s.authResult = none then some s else none) := by
  by_cases hp : s.isBrowserSession = true ∧ s.authResult = none
  · rw [if_pos hp]
    simp only [handleClose, hs, hp, and_self, if_true]
  · rw [if_neg hp]
    by_cases hn : code = 1000 ∨ code = 1001
    · simp only [handleClose, hs, hp, if_false, hn, if_true]
      exact lookupS_eraseKey _ _
    · simp only [handleClose, hs, hp, if_false, hn]
      exact lookupS_eraseKey _ _

/-- Concrete state for the C7 amended witness: a wallet (non-browser)
session whose connection closes normally. -/
def c7WState : EState :=
  { sessions := [("W",
      { clientRef := "W", sessionId := "sW", address := none,
        clientSessionId := none, isBrowserSession := false,
        authResult := none, declineResult := none })],
    openConns := ["W"], timers := [] }

/-- C7 amended witness: a non-browser session is removed on close. -/
theorem close_removes_iff_no_preserved_browser_witness :
    lookupS (handleClose c7WState "W" 1000).1.sessions "W" =
      (if (false : Bool) = true ∧ (none : Option String) = none then
        some { clientRef := "W", sessionId := "sW", address := none,
               clientSessionId := none, isBrowserSession := false,
               authResult := none, declineResult := none }
      else none) :=
  close_removes_iff_no_preserved_browser c7WState "W" 1000
    { clientRef := "W", sessionId := "sW", address := none,
      clientSessionId := none, isBrowserSession := false,
      authResult := none, declineResult := none } (by decide)

/-- The C7 counterexample trace: browser session activated, browser
drops (preserved), wallet declines while the browser is offline (the
decline result is cached), the browser reconnects and its new
connection then closes normally. -/
def c7Events : List Event :=
  [Event.connect "A" "sA" 0,
   Event.init "A" (Except.ok "l"),
   Event.connect "B" "sB" 0,
   Event.activate "B" (Except.ok (some "0xa", some "sA")) none "cs1"
     (fun _ => true) (fun _ => []),
   Event.closeEvt "A" 1006,
   Event.connect "W" "sW" 0,
   Event.declined "W" (some [1]) none (fun _ => Except.ok [2])
     (fun _ => Except.ok (some "cs1")) (fun _ => true),
   Event.connect "R" "sR" 0,
   Event.reconnect "R" (some "sA"),
   Event.closeEvt "R" 1000]

/-- C7 counterexample: after a normal close of the browser connection,
the browser-role session that holds a terminal `declineResult` (and no
`authResult`) is still in the session table — the close policy only
consults `authResult`, so a session with a cached decline is preserved,
not removed as the claim states. -/
theorem browser_session_with_decline_result_preserved :
    ((findBySessionId (run initState c7Events).1.sessions "sA").map
        (fun kv => kv.2.declineResult) = some (some "Authorization declined")) ∧
    ((findBySessionId (run initState c7Events).1.sessions "sA").map
        (fun kv => kv.2.authResult) = some none) ∧
    ((findBySessionId (run initState c7Events).1.sessions "sA").map
        (fun kv => kv.2.isBrowserSession) = some true) := by
  decide

/-- C10: a `declined` command whose payload is missing, fails to
decrypt, or does not resolve to any session still invokes the decline
hook — with the declining connection's own session, whose `address` is
null, and reason `user_declined` — and still sends the `declined`
acknowledgement on that connection before closing it. -/
theorem declined_unresolved_still_acknowledges (st : EState) (cid : String)
    (payload : Option (List Nat))
    (dec : List Nat → Except String (List Nat))
    (decodeCsid : List Nat → Except String (Option String))
    (validate : String → Bool) (s : Session)
    (hres : declResolve st payload dec decodeCsid validate = none)
    (hs : lookupS st.sessions cid = some s)
    (haddr : s.address = none)
    (hopen : cid ∈ st.openConns) :
    (responseDeclined st cid payload none dec decodeCsid validate).2 =
      [Eff.hookDecline none "user_declined" "Authorization declined"
        (if s.clientRef = cid ∧ s.isBrowserSession = true then "browser" else "wallet")
        s.sessionId,
       Eff.send cid (OutMsg.cmdMsg "declined" "Authorization declined"),
       Eff.closeConn cid] := by
  simp only [responseDeclined, hres, responseFailed, hs, finalResponse, sendIfOpen,
    hopen, if_true, haddr]
  rfl

/-- Concrete state for the C10 witness: a fresh wallet connection with
its just-minted session (null address). -/
def c10WState : EState :=
  { sessions := [("W",
      { clientRef := "W", sessionId := "sW", address := none,
        clientSessionId := none, isBrowserSession := false,
        authResult := none, declineResult := none })],
    openConns := ["W"], timers := [] }

/-- C10 witness: a payloadless `declined` command still produces the
hook invocation, the acknowledgement and the close, in that order. -/
theorem declined_unresolved_still_acknowledges_witness :
    (responseDeclined c10WState "W" none none (fun _ => Except.error "x")
      (fun _ => Except.ok none) (fun _ => false)).2 =
      [Eff.hookDecline none "user_declined" "Authorization declined"
        (if ("W" : String) = "W" ∧ (false : Bool) = true then "browser" else "wallet")
        "sW",
       Eff.send "W" (OutMsg.cmdMsg "declined" "Authorization declined"),
       Eff.closeConn "W"] :=
  declined_unresolved_still_acknowledges c10WState "W" none
    (fun _ => Except.error "x") (fun _ => Except.ok none) (fun _ => false)
    { clientRef := "W", sessionId := "sW", address := none,
      clientSessionId := none, isBrowserSession := false,
      authResult := none, declineResult := none }
    rfl (by decide) rfl (by decide)

end Engine





